import Mathlib

/-!
# azure-resourcemanager-exporter: port scan collector and security collector

A shallow embedding of `metrics_portscanner.go` and `metrics_azurerm_security.go`.

* Gauge vectors of the prometheus client are finite maps from label values to a sample.
  A `float64` sample is only ever stored and read back by this code (no arithmetic), so
  samples are modelled as rationals.
* A Go panic is an explicit outcome that keeps the state reached when it was raised.
* Informational logging (`Infof`, `Info`) has no effect on the modelled state and is left out;
  `logger.Error` is recorded.
* The scan engine (`Portscanner`: `Init`, `SetIps`, `Start`, `CacheSave`, `CacheLoad`) is not
  part of the two source files; its operations are modelled from the specification and are
  marked as such.
-/

namespace Exporter

/-! ## Panics and outcomes -/

/-- Reasons for a Go panic that the modelled code can raise. -/
inductive Panic where
  /-- Dereference of a nil pointer (`*p` with `p == nil`). -/
  | nilPointerDereference
  /-- Raised by `logger.Panic(err)` after logging `err`. -/
  | logged (err : String)
  /-- Raised by `GaugeVec.With` when the label map does not fit the declared label names. -/
  | inconsistentLabels
  deriving DecidableEq, Repr

/-- Outcome of running a piece of code on a state: normal return, or a panic together with the
state at the moment of the panic (a panic does not roll anything back). -/
inductive Result (σ : Type) where
  | ok (state : σ)
  | panicked (reason : Panic) (state : σ)

/-- Sequencing: the continuation runs only after a normal return. -/
def Result.andThen {σ : Type} (r : Result σ) (f : σ → Result σ) : Result σ :=
  match r with
  | .ok s => f s
  | .panicked p s => .panicked p s

/-- Change of the state type of an outcome. -/
def Result.map {σ τ : Type} (f : σ → τ) : Result σ → Result τ
  | .ok s => .ok (f s)
  | .panicked p s => .panicked p (f s)

/-- State carried by an outcome. -/
def Result.state {σ : Type} : Result σ → σ
  | .ok s => s
  | .panicked _ s => s

/-- Whether the outcome is a normal return. -/
def Result.returned {σ : Type} : Result σ → Bool
  | .ok _ => true
  | .panicked _ _ => false

/-! ## prometheus client: label maps and gauge vectors -/

/-- The type `prometheus.Labels` (`map[string]string`), as an association list. -/
abbrev Labels := List (String × String)

/-- A `*prometheus.GaugeVec` created with the given variable label names: the current series,
keyed by their label values in the order of the declared names. -/
structure GaugeVec (variableLabels : List String) where
  metrics : List String → Option Rat

/-- Result of `prometheus.NewGaugeVec`: a vector without series. -/
def NewGaugeVec (variableLabels : List String) : GaugeVec variableLabels :=
  ⟨fun _ => none⟩

/-- Values of the declared label names in a label map, `none` when a name is missing. -/
def lookupAll (labels : Labels) : List String → Option (List String)
  | [] => some []
  | n :: ns =>
    match labels.lookup n with
    | none => none
    | some v =>
      match lookupAll labels ns with
      | none => none
      | some vs => some (v :: vs)

/-- Label values selected by `GaugeVec.With(labels)`: the map must have exactly as many entries
as there are declared names and bind every declared name; otherwise `With` panics. -/
def labelValues (variableLabels : List String) (labels : Labels) : Option (List String) :=
  if labels.length = variableLabels.length then lookupAll labels variableLabels else none

/-- The method `GaugeVec.Reset`: deletes every series. -/
def GaugeVec.Reset {names : List String} (_g : GaugeVec names) : GaugeVec names :=
  ⟨fun _ => none⟩

/-- Store a sample in the series with the given label values, creating it when absent. -/
def GaugeVec.store {names : List String} (g : GaugeVec names) (key : List String) (v : Rat) :
    GaugeVec names :=
  ⟨fun k => if k = key then some v else g.metrics k⟩

/-- The call `g.With(labels).Set(v)`. -/
def GaugeVec.WithSet {names : List String} (g : GaugeVec names) (labels : Labels) (v : Rat) :
    Except Panic (GaugeVec names) :=
  match labelValues names labels with
  | none => .error .inconsistentLabels
  | some key => .ok (g.store key v)

/-! ## Scan engine data model (engine source not among the two files) -/

/-- Modelled from the spec: the classification of one probe, open, closed or filtered. -/
inductive Classification where
  | opened
  | closed
  | filtered
  deriving DecidableEq, Repr

/-- Modelled from the spec: the status of a `HostScanRecord`, pending, scanning or finished. -/
inductive HostStatus where
  | pending
  | scanning
  | finished
  deriving DecidableEq, Repr

/-- Modelled from the spec: `PortProbeResult` of the data model (protocol, port number,
classification, description resolved from the Port Description Table). -/
structure PortProbeResult where
  protocol : String
  port : Nat
  classification : Classification
  description : String
  deriving DecidableEq, Repr

/-- Modelled from the spec: `HostScanRecord` of the data model (status, elapsed duration,
last-updated timestamp in seconds, ordered open-port results). -/
structure HostScanRecord where
  status : HostStatus
  elapsed : Rat
  updated : Rat
  results : List PortProbeResult
  deriving DecidableEq, Repr

/-- Modelled from the spec: `ResultCache`, the mapping from IP address to `HostScanRecord`,
as an association list. -/
abbrev ResultCache := List (String × HostScanRecord)

/-- Modelled from the spec: the engine type `Portscanner`; the source files only use its field
`PublicIps`, its `Callbacks` (wired in `Setup`, see `dispatch`) and its methods. -/
structure Portscanner where
  PublicIps : List String
  cache : ResultCache

/-- Modelled from the spec: the label set of a result entry, `ipAddress`, `protocol`, `port`,
`description`. -/
structure ResultLabels where
  ipAddress : String
  protocol : String
  port : String
  description : String
  deriving DecidableEq, Repr

/-- Modelled from the spec: `PortscannerResult`, the argument of the result entry event: a
structured label set and a value. The source reads its fields `Labels` and `Value`. -/
structure PortscannerResult where
  Labels : ResultLabels
  Value : Rat
  deriving DecidableEq, Repr

/-- The label map (`prometheus.Labels`) carried by a result entry. -/
def ResultLabels.toLabels (l : ResultLabels) : Labels :=
  [("ipAddress", l.ipAddress), ("protocol", l.protocol), ("port", l.port),
   ("description", l.description)]

/-- Label values of a result entry in the order declared for the port gauge. -/
def ResultLabels.values (l : ResultLabels) : List String :=
  [l.ipAddress, l.protocol, l.port, l.description]

/-! ## Persisted cache (modelled from the specification) -/

/-- Modelled from the spec: the "structured, schema-tolerant serialization" of section 6, as a
document tree with named fields. The spec fixes no concrete syntax. -/
inductive Doc where
  | str (s : String)
  | num (q : Rat)
  | arr (items : List Doc)
  | obj (fields : List (String × Doc))

/-- Modelled from the spec: reading a field of an object document by name; unrecognised fields
are never inspected ("the format must ignore unrecognized fields on load"). -/
def Doc.field (d : Doc) (name : String) : Option Doc :=
  match d with
  | .obj fields => fields.lookup name
  | _ => none

/-- String payload of a document. -/
def Doc.asStr : Doc → Option String
  | .str s => some s
  | _ => none

/-- Numeric payload of a document. -/
def Doc.asNum : Doc → Option Rat
  | .num q => some q
  | _ => none

/-- Items of an array document. -/
def Doc.asArr : Doc → Option (List Doc)
  | .arr items => some items
  | _ => none

/-- Decode every element of a list; fails when one element fails. -/
def decodeAll {α β : Type} (f : α → Option β) : List α → Option (List β)
  | [] => some []
  | a :: rest =>
    match f a with
    | none => none
    | some b =>
      match decodeAll f rest with
      | none => none
      | some bs => some (b :: bs)

/-- Modelled from the spec: serialized name of a classification. -/
def encodeClassification : Classification → String
  | .opened => "open"
  | .closed => "closed"
  | .filtered => "filtered"

/-- Modelled from the spec: classification named by a string. -/
def decodeClassification (s : String) : Option Classification :=
  if s = "open" then some .opened
  else if s = "closed" then some .closed
  else if s = "filtered" then some .filtered
  else none

/-- Modelled from the spec: serialized name of a host status. -/
def encodeStatus : HostStatus → String
  | .pending => "pending"
  | .scanning => "scanning"
  | .finished => "finished"

/-- Modelled from the spec: host status named by a string. -/
def decodeStatus (s : String) : Option HostStatus :=
  if s = "pending" then some .pending
  else if s = "scanning" then some .scanning
  else if s = "finished" then some .finished
  else none

/-- Modelled from the spec: port number denoted by a numeric payload. -/
def decodeNat (q : Rat) : Option Nat :=
  if q.den = 1 ∧ 0 ≤ q.num then some q.num.toNat else none

/-- Modelled from the spec: serialization of one open-port entry. -/
def encodePort (p : PortProbeResult) : Doc :=
  .obj [("protocol", .str p.protocol), ("port", .num p.port),
        ("state", .str (encodeClassification p.classification)),
        ("description", .str p.description)]

/-- Modelled from the spec: deserialization of one open-port entry. -/
def decodePort (d : Doc) : Option PortProbeResult := do
  let protocol ← (← d.field "protocol").asStr
  let port ← decodeNat (← (← d.field "port").asNum)
  let classification ← decodeClassification (← (← d.field "state").asStr)
  let description ← (← d.field "description").asStr
  pure ⟨protocol, port, classification, description⟩

/-- Modelled from the spec: serialization of a `HostScanRecord` (status, elapsed, ordered
open-port entries, and the last-updated timestamp in whole seconds: sub-second precision is
not persisted). -/
def encodeRecord (r : HostScanRecord) : Doc :=
  .obj [("status", .str (encodeStatus r.status)), ("elapsed", .num r.elapsed),
        ("updated", .num (Int.floor r.updated)),
        ("results", .arr (r.results.map encodePort))]

/-- Modelled from the spec: deserialization of a `HostScanRecord`. -/
def decodeRecord (d : Doc) : Option HostScanRecord := do
  let status ← decodeStatus (← (← d.field "status").asStr)
  let elapsed ← (← d.field "elapsed").asNum
  let updated ← (← d.field "updated").asNum
  let results ← decodeAll decodePort (← (← d.field "results").asArr)
  pure ⟨status, elapsed, updated, results⟩

/-- Modelled from the spec: serialization of the full cache, every IP with its record. -/
def encodeCache (c : ResultCache) : Doc :=
  .obj (c.map fun e => (e.1, encodeRecord e.2))

/-- Modelled from the spec: deserialization of a snapshot. -/
def decodeCache (d : Doc) : Option ResultCache :=
  match d with
  | .obj fields => decodeAll (fun e => (decodeRecord e.2).map fun r => (e.1, r)) fields
  | _ => none

/-- State of one path of the durable storage. -/
inductive FileState where
  /-- No file at the path. -/
  | absent
  /-- A file that cannot be read. -/
  | unreadable
  /-- A readable file with its content. -/
  | content (doc : Doc)

/-- Durable storage: the state of every path. -/
abbrev FileSystem := String → FileState

/-- Write a file. -/
def FileSystem.write (files : FileSystem) (path : String) (doc : Doc) : FileSystem :=
  fun p => if p = path then .content doc else files p

/-- Rename a file, replacing the destination. -/
def FileSystem.rename (files : FileSystem) (src dst : String) : FileSystem :=
  fun p => if p = dst then files src else if p = src then .absent else files p

/-- Modelled from the spec: `Portscanner.Init`; the engine starts without targets and with an
empty cache. -/
def Portscanner.Init : Portscanner :=
  ⟨[], []⟩

/-- Modelled from the spec: `Portscanner.SetIps` (`setTargets`): "replaces the scan target
list". -/
def Portscanner.SetIps (c : Portscanner) (ips : List String) : Portscanner :=
  { c with PublicIps := ips }

/-- Modelled from the spec: `Portscanner.CacheSave` (`save(path)`): "serializes the full cache
to durable storage using an atomic write (write to a temporary location, then rename)". -/
def Portscanner.CacheSave (c : Portscanner) (path : String) (files : FileSystem) : FileSystem :=
  (files.write (path ++ ".tmp") (encodeCache c.cache)).rename (path ++ ".tmp") path

/-- Modelled from the spec: `Portscanner.CacheLoad` (`load(path)`): "deserializes a prior
snapshot to pre-populate the cache; a missing or unreadable file is not an error, it yields an
empty cache"; a corrupt file likewise (section 7). -/
def Portscanner.CacheLoad (c : Portscanner) (path : String) (files : FileSystem) : Portscanner :=
  match files path with
  | .content doc =>
    match decodeCache doc with
    | some cache => { c with cache := cache }
    | none => { c with cache := [] }
  | _ => { c with cache := [] }

/-- Records agree up to sub-second precision of the last-updated timestamp. -/
def HostScanRecord.Equiv (a b : HostScanRecord) : Prop :=
  a.status = b.status ∧ a.elapsed = b.elapsed ∧ Int.floor a.updated = Int.floor b.updated ∧
    a.results = b.results

/-- Caches hold the same IPs in the same order with equivalent records. -/
def ResultCache.Equiv (a b : ResultCache) : Prop :=
  List.Forall₂ (fun x y => x.1 = y.1 ∧ HostScanRecord.Equiv x.2 y.2) a b

/-! ## `metrics_portscanner.go`: collector state and the listener wired in `Setup` -/

/-- The global options read by the collector: `opts.Cache.Path`. -/
structure Opts where
  CachePath : String

/-- The collector `MetricsCollectorPortscanner` once `Setup` has created its gauges: the status
gauge has the labels `ipAddress`, `type`; the port gauge has the labels `ipAddress`,
`protocol`, `port`, `description`. (The field `publicIpPortscanUpdated` is never assigned.) -/
structure MetricsCollectorPortscanner where
  portscanner : Portscanner
  publicIpPortscanStatus : GaugeVec ["ipAddress", "type"]
  publicIpPortscanPort : GaugeVec ["ipAddress", "protocol", "port", "description"]

/-- One invocation of a callback of `Portscanner.Callbacks`. A host finish event also carries
the wall clock reading used by `SetToCurrentTime`. -/
inductive Event where
  | StartupScan
  | StartScanIpAdress (ipAddress : String)
  | FinishScanIpAdress (ipAddress : String) (elapsed : Rat) (now : Rat)
  | FinishScan
  | ResultCleanup
  | ResultPush (result : PortscannerResult)
  deriving DecidableEq, Repr

/-- Everything the collector reads and writes: its own state, the durable storage, and the
sequence of callback invocations made by the engine so far. -/
structure World where
  m : MetricsCollectorPortscanner
  files : FileSystem
  events : List Event

/-- The call `m.prometheus.publicIpPortscanStatus.With(labels).Set(v)`. -/
def setStatus (labels : Labels) (v : Rat) (w : World) : Result World :=
  match w.m.publicIpPortscanStatus.WithSet labels v with
  | .error p => .panicked p w
  | .ok g => .ok { w with m.publicIpPortscanStatus := g }

/-- The call `m.prometheus.publicIpPortscanPort.With(labels).Set(v)`. -/
def setPort (labels : Labels) (v : Rat) (w : World) : Result World :=
  match w.m.publicIpPortscanPort.WithSet labels v with
  | .error p => .panicked p w
  | .ok g => .ok { w with m.publicIpPortscanPort := g }

/-- The callback `Callbacks.FinishScan`: saves the cache when a cache path is configured. -/
def Callbacks.FinishScan (opts : Opts) (w : World) : Result World :=
  if opts.CachePath ≠ "" then
    .ok { w with files := w.m.portscanner.CacheSave opts.CachePath w.files }
  else
    .ok w

/-- The callback `Callbacks.StartupScan`: resets the status gauge. -/
def Callbacks.StartupScan (w : World) : Result World :=
  .ok { w with m.publicIpPortscanStatus := w.m.publicIpPortscanStatus.Reset }

/-- The callback `Callbacks.StartScanIpAdress`: marks the address as not finished. -/
def Callbacks.StartScanIpAdress (ipAddress : String) (w : World) : Result World :=
  setStatus [("ipAddress", ipAddress), ("type", "finished")] 0 w

/-- The callback `Callbacks.FinishScanIpAdress`: marks the address as finished, then sets the
elapsed time, then the update time. -/
def Callbacks.FinishScanIpAdress (ipAddress : String) (elapsed now : Rat) (w : World) :
    Result World :=
  ((setStatus [("ipAddress", ipAddress), ("type", "finished")] 1 w).andThen
    (setStatus [("ipAddress", ipAddress), ("type", "elapsed")] elapsed)).andThen
    (setStatus [("ipAddress", ipAddress), ("type", "updated")] now)

/-- The callback `Callbacks.ResultCleanup`: resets the port gauge. -/
def Callbacks.ResultCleanup (w : World) : Result World :=
  .ok { w with m.publicIpPortscanPort := w.m.publicIpPortscanPort.Reset }

/-- The callback `Callbacks.ResultPush`: sets the series of the result's labels. -/
def Callbacks.ResultPush (result : PortscannerResult) (w : World) : Result World :=
  setPort result.Labels.toLabels result.Value w

/-- The listener wired in `Setup`: the callback run for each event. -/
def dispatch (opts : Opts) (e : Event) (w : World) : Result World :=
  match e with
  | .StartupScan => Callbacks.StartupScan w
  | .StartScanIpAdress ip => Callbacks.StartScanIpAdress ip w
  | .FinishScanIpAdress ip elapsed now => Callbacks.FinishScanIpAdress ip elapsed now w
  | .FinishScan => Callbacks.FinishScan opts w
  | .ResultCleanup => Callbacks.ResultCleanup w
  | .ResultPush result => Callbacks.ResultPush result w

/-- Modelled from the spec: the engine fires an event (Callback Dispatcher, section 4.4); the
invocation is recorded and the callback wired in `Setup` runs. -/
def fire (opts : Opts) (e : Event) (w : World) : Result World :=
  dispatch opts e { w with events := w.events ++ [e] }

/-- Modelled from the spec: a sequence of events fired one after the other. -/
def fireAll (opts : Opts) : List Event → World → Result World
  | [], w => .ok w
  | e :: rest, w => (fire opts e w).andThen (fireAll opts rest)

/-- The result of `os.Stat(path)` satisfies `os.IsNotExist`. -/
def statIsNotExist (files : FileSystem) (path : String) : Bool :=
  match files path with
  | .absent => true
  | _ => false

/-- The method `MetricsCollectorPortscanner.Setup`, run on the durable storage found at process
start. The callbacks it installs are `dispatch`. Registration of the two gauges with the
process-wide registry is outside the modelled state. -/
def Setup (opts : Opts) (files : FileSystem) : World :=
  let portscanner := Portscanner.Init
  let publicIpPortscanStatus := NewGaugeVec ["ipAddress", "type"]
  let publicIpPortscanPort := NewGaugeVec ["ipAddress", "protocol", "port", "description"]
  let portscanner :=
    if opts.CachePath ≠ "" then
      if !statIsNotExist files opts.CachePath then
        portscanner.CacheLoad opts.CachePath files
      else portscanner
    else portscanner
  { m := { portscanner, publicIpPortscanStatus, publicIpPortscanPort }, files, events := [] }

/-! ## Scan cycle of the engine (modelled from the specification) -/

/-- Modelled from the spec: the port set of the `ScanConfiguration` and what one cycle observes
of its environment: the classification of every probe, the Port Description Table, per host
the measured elapsed time and the clock reading at the end of its scan, and the choices of the
scheduler that decide how the steps of concurrently running host scans interleave. -/
structure ScanEnv where
  portSet : List (String × Nat)
  classify : String → String → Nat → Classification
  describe : String → Nat → String
  elapsed : String → Rat
  now : String → Rat
  schedule : List (List Bool)

/-- Modelled from the spec: the results of a host scan, "the open-port subset with descriptions
resolved from the Port Description Table", in port set order. -/
def openPorts (env : ScanEnv) (ip : String) : List PortProbeResult :=
  env.portSet.filterMap fun p =>
    if env.classify ip p.1 p.2 = .opened then
      some ⟨p.1, p.2, .opened, env.describe p.1 p.2⟩
    else none

/-- Modelled from the spec: the result entry event of an open port carries the label set
`ipAddress`, `protocol`, `port`, `description` "and a presence value of 1". -/
def resultEntry (ip : String) (p : PortProbeResult) : PortscannerResult :=
  ⟨⟨ip, p.protocol, toString p.port, p.description⟩, 1⟩

/-- Modelled from the spec: the steps of a Host Scanner task that other tasks can observe:
the scan started event, the start of `publish(record)`, one result entry event per open port,
the scan finished event. -/
inductive HostStep where
  | scanStarted (ip : String)
  | publishRecord (ip : String) (record : HostScanRecord)
  | pushEntry (ip : String) (p : PortProbeResult)
  | scanFinished (ip : String) (elapsed now : Rat)
  deriving DecidableEq, Repr

/-- Modelled from the spec: the steps of the host scan of one target, sections 4.2 and 4.3, in
the event order of Scenario A: scan started, publication of the record (cleanup before the
first publish of the cycle, then the result entries), scan finished. -/
def hostSteps (env : ScanEnv) (ip : String) : List HostStep :=
  [.scanStarted ip, .publishRecord ip ⟨.finished, env.elapsed ip, env.now ip, openPorts env ip⟩]
    ++ (openPorts env ip).map (fun p => .pushEntry ip p)
    ++ [.scanFinished ip (env.elapsed ip) (env.now ip)]

/-- Modelled from the spec: the state of the engine during a cycle: the world, and whether a
record has been published in this cycle yet. -/
structure Cycle where
  world : World
  published : Bool

/-- Modelled from the spec: one step of a host scan. The start of `publish(record)` is a
single step ("guarded against concurrent writers"): before the first publish of a cycle the
cache is replaced and a single result cleanup event is fired; then the record is stored. -/
def runStep (opts : Opts) (step : HostStep) (c : Cycle) : Result Cycle :=
  match step with
  | .scanStarted ip =>
    (fire opts (.StartScanIpAdress ip) c.world).map fun w => { c with world := w }
  | .publishRecord ip record =>
    ((if c.published then .ok c.world
      else fire opts .ResultCleanup { c.world with m.portscanner.cache := [] }).andThen fun w =>
        .ok { w with m.portscanner.cache :=
                       w.m.portscanner.cache.filter (fun e => e.1 != ip) ++ [(ip, record)] }).map
      fun w => ⟨w, true⟩
  | .pushEntry ip p =>
    (fire opts (.ResultPush (resultEntry ip p)) c.world).map fun w => { c with world := w }
  | .scanFinished ip elapsed now =>
    (fire opts (.FinishScanIpAdress ip elapsed now) c.world).map fun w => { c with world := w }

/-- Modelled from the spec: steps run one after the other. -/
def runSteps (opts : Opts) : List HostStep → Cycle → Result Cycle
  | [], c => .ok c
  | step :: rest, c => (runStep opts step c).andThen (runSteps opts rest)

/-- An interleaving of two sequences: each choice takes the next element of the left (`true`)
or of the right (`false`) sequence; when the choices or one sequence run out, what is left
follows in order. Every interleaving of the two is the result of some choices
(`merge_complete`). -/
def merge {α : Type} : List Bool → List α → List α → List α
  | [], l, r => l ++ r
  | true :: choices, a :: l, r => a :: merge choices l r
  | true :: _, [], r => r
  | false :: choices, l, b :: r => b :: merge choices l r
  | false :: _, l, [] => l

/-- The third sequence is an interleaving of the first two: it consists of the elements of
both, those of each sequence in their own order. -/
inductive Shuffle {α : Type} : List α → List α → List α → Prop where
  | done : Shuffle [] [] []
  | left (a : α) {l r out : List α} : Shuffle l r out → Shuffle (a :: l) r (a :: out)
  | right (b : α) {l r out : List α} : Shuffle l r out → Shuffle l (b :: r) (b :: out)

/-- The last sequence is an interleaving of the given sequences. -/
inductive Interleaving {α : Type} : List (List α) → List α → Prop where
  | nil : Interleaving [] []
  | cons {t : List α} {ts : List (List α)} {rest out : List α} :
      Interleaving ts rest → Shuffle t rest out → Interleaving (t :: ts) out

/-- An interleaving of several sequences: the first one merged into an interleaving of the
others. Without choices the sequences follow one another. -/
def interleave {α : Type} : List (List Bool) → List (List α) → List α
  | _, [] => []
  | [], t :: ts => t ++ interleave [] ts
  | choices :: rest, t :: ts => merge choices t (interleave rest ts)

/-- Modelled from the spec: `Portscanner.Start` (`start()`), sections 4.1 and 5: "fire the
startup event, then schedule one Host Scanner task per target; when every task has completed,
fire the finish event". The tasks run concurrently: their steps interleave as the scheduler
chooses. Every interleaving of the tasks is the result of some choices of the scheduler
(`interleave_complete`), so those of a pool of any size are among them. -/
def Portscanner.Start (opts : Opts) (env : ScanEnv) (w : World) : Result World :=
  ((fire opts .StartupScan w).andThen fun w =>
      (runSteps opts (interleave env.schedule (w.m.portscanner.PublicIps.map (hostSteps env)))
        ⟨w, false⟩).map fun c => c.world).andThen
    (fire opts .FinishScan)

/-! ## `metrics_portscanner.go`: target discovery and `Collect` -/

/-- The only field of `subscriptions.Subscription` read by the code, `SubscriptionID *string`. -/
structure Subscription where
  SubscriptionID : Option String
  deriving DecidableEq, Repr

/-- The only field of `network.PublicIPAddressPropertiesFormat` read by the code,
`IPAddress *string`. -/
structure PublicIPAddressPropertiesFormat where
  IPAddress : Option String
  deriving DecidableEq, Repr

/-- The part of `network.PublicIPAddress` read by the code: the embedded pointer
`*PublicIPAddressPropertiesFormat`, through which `val.IPAddress` is promoted. -/
structure PublicIPAddress where
  PublicIPAddressPropertiesFormat : Option PublicIPAddressPropertiesFormat
  deriving DecidableEq, Repr

/-- A segment of a compliance result, `security.ComplianceSegment`: `SegmentType *string` and
`Percentage *float64`. -/
structure ComplianceSegment where
  SegmentType : Option String
  Percentage : Option Rat
  deriving DecidableEq, Repr

/-- The only field of `security.ComplianceProperties` read by the code,
`AssessmentResult *[]ComplianceSegment`. -/
structure ComplianceProperties where
  AssessmentResult : Option (List ComplianceSegment)
  deriving DecidableEq, Repr

/-- The part of `security.Compliance` read by the code: the embedded pointer
`*ComplianceProperties`, through which `complienceResult.AssessmentResult` is promoted. -/
structure Compliance where
  ComplianceProperties : Option ComplianceProperties
  deriving DecidableEq, Repr

/-- Answers of the Azure management API at the time of the call: for a subscription ID the
outcome of `client.ListAll(ctx)` (on success the `Values()` of the returned page), and for a
subscription resource ID and a location the outcome of the compliance `client.Get`. -/
structure AzureApi where
  ListAll : String → Except String (List PublicIPAddress)
  ComplianceGet : String → String → Except String Compliance

/-- The inner loop of `fetchPublicIpAdresses`: `val.IPAddress` reads through the embedded
properties pointer, which panics when that pointer is nil; the address of every other listed
resource that has one is appended. -/
def appendIpAddresses (ipAddressList : List String) :
    List PublicIPAddress → Except Panic (List String)
  | [] => .ok ipAddressList
  | val :: rest =>
    match val.PublicIPAddressPropertiesFormat with
    | none => .error .nilPointerDereference
    | some properties =>
      match properties.IPAddress with
      | some ip => appendIpAddresses (ipAddressList ++ [ip]) rest
      | none => appendIpAddresses ipAddressList rest

/-- The outer loop of `fetchPublicIpAdresses`, from the given list built so far. -/
def fetchLoop (api : AzureApi) : List Subscription → List String → Except Panic (List String)
  | [], ipAddressList => .ok ipAddressList
  | subscription :: rest, ipAddressList =>
    match subscription.SubscriptionID with
    | none => .error .nilPointerDereference
    | some id =>
      match api.ListAll id with
      | .error err => .error (.logged err)
      | .ok values =>
        match appendIpAddresses ipAddressList values with
        | .error p => .error p
        | .ok ipAddressList => fetchLoop api rest ipAddressList

/-- The method `MetricsCollectorPortscanner.fetchPublicIpAdresses`. -/
def fetchPublicIpAdresses (api : AzureApi) (subscriptions : List Subscription) :
    Except Panic (List String) :=
  fetchLoop api subscriptions []

/-- The method `MetricsCollectorPortscanner.Collect`, for the subscriptions of the collector
reference. -/
def Collect (opts : Opts) (api : AzureApi) (env : ScanEnv) (subscriptions : List Subscription)
    (w : World) : Result World :=
  match fetchPublicIpAdresses api subscriptions with
  | .error p => .panicked p w
  | .ok ipAdressList =>
    let w := { w with m.portscanner := w.m.portscanner.SetIps ipAdressList }
    if ipAdressList.length > 0 then
      Portscanner.Start opts env w
    else
      .ok w

/-! ## `metrics_azurerm_security.go`: compliance collection -/

/-- One entry of a `prometheusCommon.MetricList`: labels and value. -/
structure MetricRow where
  labels : Labels
  value : Rat
  deriving DecidableEq, Repr

/-- The list built by `NewMetricsList` and `Add`. -/
abbrev MetricList := List MetricRow

/-- The method `MetricList.GaugeSet`: `gauge.With(labels).Set(value)` for every entry in order. -/
def GaugeSet {names : List String} : MetricList → GaugeVec names → Result (GaugeVec names)
  | [], g => .ok g
  | row :: rest, g =>
    match g.WithSet row.labels row.value with
    | .error p => .panicked p g
    | .ok g => GaugeSet rest g

/-- What `collectAzureSecurityCompliance` acts on: the functions sent on the `callback` channel
so far, each `func() { infoMetric.GaugeSet(m.prometheus.securitycenterCompliance) }` given by
its captured `infoMetric`, and the errors passed to `logger.Error`. -/
structure SecurityWorld where
  callback : List MetricList
  errors : List String
  deriving DecidableEq, Repr

/-- Running a function taken from the callback channel on the compliance gauge. -/
def runCallback (infoMetric : MetricList)
    (securitycenterCompliance : GaugeVec ["subscriptionID", "assessmentType"]) :
    Result (GaugeVec ["subscriptionID", "assessmentType"]) :=
  GaugeSet infoMetric securitycenterCompliance

/-- The loop over `*complienceResult.AssessmentResult`, from the metric list built so far. -/
def assessmentLoop (subscriptionID : String) :
    List ComplianceSegment → MetricList → Except Panic MetricList
  | [], infoMetric => .ok infoMetric
  | result :: rest, infoMetric =>
    let segmentType :=
      match result.SegmentType with
      | some s => s
      | none => ""
    let infoLabels : Labels :=
      [("subscriptionID", subscriptionID), ("assessmentType", segmentType)]
    match result.Percentage with
    | none => .error .nilPointerDereference
    | some percentage => assessmentLoop subscriptionID rest (infoMetric ++ [⟨infoLabels, percentage⟩])

/-- The method `MetricsCollectorAzureRmSecurity.collectAzureSecurityCompliance`.
`complienceResult.AssessmentResult` reads through the embedded properties pointer, which
panics when that pointer is nil. -/
def collectAzureSecurityCompliance (api : AzureApi) (subscription : Subscription)
    (location : String) (w : SecurityWorld) : Result SecurityWorld :=
  match subscription.SubscriptionID with
  | none => .panicked .nilPointerDereference w
  | some id =>
    let subscriptionResourceId := "/subscriptions/" ++ id
    match api.ComplianceGet subscriptionResourceId location with
    | .error err => .ok { w with errors := w.errors ++ [err] }
    | .ok complienceResult =>
      match complienceResult.ComplianceProperties with
      | none => .panicked .nilPointerDereference w
      | some properties =>
        let built : Except Panic MetricList :=
          match properties.AssessmentResult with
          | some results => assessmentLoop id results []
          | none => .ok []
        match built with
        | .error p => .panicked p w
        | .ok infoMetric => .ok { w with callback := w.callback ++ [infoMetric] }

/-! ## Vocabulary of the properties -/

/-- The latest host event of an address. -/
inductive HostPhase where
  | started
  | finished (elapsed : Rat)
  deriving DecidableEq, Repr

/-- Effect of one event on the latest host event of every address: a startup event forgets all
of them. -/
def hostPhaseStep (h : String → Option HostPhase) : Event → String → Option HostPhase
  | .StartupScan => fun _ => none
  | .StartScanIpAdress ip => fun a => if a = ip then some .started else h a
  | .FinishScanIpAdress ip elapsed _ => fun a => if a = ip then some (.finished elapsed) else h a
  | _ => h

/-- The latest host event of every address in a trace that follows a startup event. -/
def latestHostEvent (tr : List Event) : String → Option HostPhase :=
  tr.foldl hostPhaseStep (fun _ => none)

/-- The events between startup and finish of one cycle over the given targets: no further
startup event, a host start for each target, and each host start followed later by a finish
of the same address. Nothing is required of the interleaving of different hosts. -/
def CycleBody (targets : List String) (tr : List Event) : Prop :=
  Event.StartupScan ∉ tr ∧
  (∀ ip ∈ targets, Event.StartScanIpAdress ip ∈ tr) ∧
  (∀ front back ip, tr = front ++ Event.StartScanIpAdress ip :: back →
    ∃ elapsed now, Event.FinishScanIpAdress ip elapsed now ∈ back)

/-- Value of the series named `finished` of an address in the status gauge. -/
def finishedOf (w : World) (ip : String) : Option Rat :=
  w.m.publicIpPortscanStatus.metrics [ip, "finished"]

/-- Value of the series named `elapsed` of an address in the status gauge. -/
def elapsedOf (w : World) (ip : String) : Option Rat :=
  w.m.publicIpPortscanStatus.metrics [ip, "elapsed"]

/-- What the status gauge must show for an address given its latest host event. -/
def StatusShows (w : World) (ip : String) : Option HostPhase → Prop
  | none => ∀ ty, w.m.publicIpPortscanStatus.metrics [ip, ty] = none
  | some .started => finishedOf w ip = some 0
  | some (.finished elapsed) => finishedOf w ip = some 1 ∧ elapsedOf w ip = some elapsed

/-- The result cleanup event fires exactly once in the trace and no result entry event comes
before it. -/
def cleanupOnceBeforePush : List Event → Bool
  | [] => false
  | .ResultCleanup :: rest => rest.all fun e => e != .ResultCleanup
  | .ResultPush _ :: _ => false
  | _ :: rest => cleanupOnceBeforePush rest

/-- Value a series holds after the result entries of a trace, starting from `init`: that of the
last push with these label values. -/
def lastPushFrom (init : Option Rat) (tr : List Event) (key : List String) : Option Rat :=
  tr.foldl
    (fun acc e =>
      match e with
      | .ResultPush r => if key = r.Labels.values then some r.Value else acc
      | _ => acc)
    init

/-- Value of the last push of a label set in a trace, `none` when it was never pushed. -/
def lastPush (tr : List Event) (key : List String) : Option Rat :=
  lastPushFrom none tr key

/-- The label `ipAddress` of a series of the port gauge: the first of its label values. -/
def seriesIpAddress (key : List String) : Option String :=
  key.head?

/-- Every series of the port gauge has its `ipAddress` among the given addresses. -/
def PortSeriesWithin (ips : List String) (w : World) : Prop :=
  ∀ key v, w.m.publicIpPortscanPort.metrics key = some v →
    ∃ ip ∈ ips, seriesIpAddress key = some ip

/-- Listing public IP addresses succeeds for the subscription, with the given values. -/
def ListingSucceeds (api : AzureApi) (subscription : Subscription)
    (values : List PublicIPAddress) : Prop :=
  ∃ id, subscription.SubscriptionID = some id ∧ api.ListAll id = .ok values

/-- Listing public IP addresses fails for the subscription with the given error. -/
def ListingFailsWith (api : AzureApi) (subscription : Subscription) (err : String) : Prop :=
  ∃ id, subscription.SubscriptionID = some id ∧ api.ListAll id = .error err

/-- Listing public IP addresses fails for the subscription. -/
def ListingFails (api : AzureApi) (subscription : Subscription) : Prop :=
  ∃ err, ListingFailsWith api subscription err

/-- The address of a listed resource, `none` when it has no properties or no address. -/
def PublicIPAddress.address (val : PublicIPAddress) : Option String :=
  match val.PublicIPAddressPropertiesFormat with
  | some properties => properties.IPAddress
  | none => none

/-- The address targeted by a step of a host scan. -/
def HostStep.ipAddress : HostStep → String
  | .scanStarted ip => ip
  | .publishRecord ip _ => ip
  | .pushEntry ip _ => ip
  | .scanFinished ip _ _ => ip

/-- No result entry comes before the start of a publication in the sequence of steps. -/
def entriesFollowPublish : List HostStep → Bool
  | [] => true
  | .publishRecord _ _ :: _ => true
  | .pushEntry _ _ :: _ => false
  | _ :: rest => entriesFollowPublish rest

/-- The metric entry the compliance collector builds for one assessment result. -/
def complianceRow (subscriptionID : String) (segmentType : Option String) (percentage : Rat) :
    MetricRow :=
  ⟨[("subscriptionID", subscriptionID), ("assessmentType", segmentType.getD "")], percentage⟩

/-! ## Concrete inputs -/

/-- No cache path configured. -/
def optsNoCache : Opts := ⟨""⟩

/-- A cache path is configured. -/
def optsCache : Opts := ⟨"/tmp/portscan.cache"⟩

/-- Storage without any file. -/
def noFiles : FileSystem := fun _ => .absent

/-- Storage whose cache file exists but cannot be read. -/
def unreadableFiles : FileSystem :=
  fun p => if p = "/tmp/portscan.cache" then .unreadable else .absent

/-- Scenario A of the specification: port 22 closed, port 80 open with description `http`;
host scans run one after the other. -/
def envA : ScanEnv :=
  { portSet := [("tcp", 22), ("tcp", 80)],
    classify := fun _ _ port => if port = 80 then .opened else .closed,
    describe := fun _ port => if port = 80 then "http" else "ssh",
    elapsed := fun _ => 2,
    now := fun _ => 1000,
    schedule := [] }

/-- Scenario A with a scheduler that alternates between the first host scan and the others,
starting with the others. -/
def envInterleaved : ScanEnv :=
  { envA with schedule := [[false, true, false, true, false, true]] }

/-- The result entry of Scenario A. -/
def entryA : PortscannerResult :=
  ⟨⟨"10.0.0.1", "tcp", "80", "http"⟩, 1⟩

/-- The event trace of Scenario A. -/
def traceA : List Event :=
  [.StartupScan, .StartScanIpAdress "10.0.0.1", .ResultCleanup, .ResultPush entryA,
   .FinishScanIpAdress "10.0.0.1" 2 1000, .FinishScan]

/-- The host events of Scenario A, between startup and finish. -/
def bodyA : List Event :=
  [.StartScanIpAdress "10.0.0.1", .ResultCleanup, .ResultPush entryA,
   .FinishScanIpAdress "10.0.0.1" 2 1000]

/-- A subscription with an ID. -/
def subA : Subscription := ⟨some "sub-a"⟩

/-- An API where subscription `sub-a` lists one resource without address and one with address
`10.0.0.1`, and whose compliance request succeeds with two segments. -/
def apiOne : AzureApi :=
  { ListAll := fun _ => .ok [⟨some ⟨none⟩⟩, ⟨some ⟨some "10.0.0.1"⟩⟩],
    ComplianceGet := fun _ _ =>
      .ok ⟨some ⟨some [⟨some "Compliant", some 80⟩, ⟨none, some 20⟩]⟩⟩ }

/-- An API where every subscription lists no resource, and whose compliance result has a
segment without percentage. -/
def apiNone : AzureApi :=
  { ListAll := fun _ => .ok [],
    ComplianceGet := fun _ _ => .ok ⟨some ⟨some [⟨some "Compliant", none⟩]⟩⟩ }

/-- An API where every request fails. -/
def apiDown : AzureApi :=
  { ListAll := fun _ => .error "listing failed",
    ComplianceGet := fun _ _ => .error "request failed" }

/-- An API where subscription `sub-a` lists the address `10.0.0.9`. -/
def apiOld : AzureApi :=
  { ListAll := fun _ => .ok [⟨some ⟨some "10.0.0.9"⟩⟩],
    ComplianceGet := fun _ _ => .ok ⟨some ⟨none⟩⟩ }

/-- An API where subscription `sub-a` lists the addresses `10.0.0.1` and `10.0.0.2`. -/
def apiTwo : AzureApi :=
  { ListAll := fun _ => .ok [⟨some ⟨some "10.0.0.1"⟩⟩, ⟨some ⟨some "10.0.0.2"⟩⟩],
    ComplianceGet := fun _ _ => .ok ⟨some ⟨none⟩⟩ }

/-- An API where subscription `sub-a` lists a resource with address `10.0.0.1` and a resource
without properties, and whose compliance reply has no properties. -/
def apiBare : AzureApi :=
  { ListAll := fun _ => .ok [⟨some ⟨some "10.0.0.1"⟩⟩, ⟨none⟩],
    ComplianceGet := fun _ _ => .ok ⟨none⟩ }

/-- A second subscription with an ID. -/
def subB : Subscription := ⟨some "sub-b"⟩

/-- An API where the listing of `sub-a` succeeds with the address `10.0.0.1` and every other
listing fails. -/
def apiMixed : AzureApi :=
  { ListAll := fun id =>
      if id = "sub-a" then .ok [⟨some ⟨some "10.0.0.1"⟩⟩] else .error "listing failed",
    ComplianceGet := fun _ _ => .error "request failed" }

/-- The collector right after `Setup` without cache. -/
def worldFresh : World := Setup optsNoCache noFiles

/-- The collector after a first collection cycle that found `10.0.0.1` with port 80 open. -/
def worldAfterA : World := (Collect optsNoCache apiOne envA [subA] worldFresh).state

/-- The collector after a collection cycle that found `10.0.0.9` with port 80 open. -/
def worldStale : World := (Collect optsNoCache apiOld envA [subA] worldFresh).state

/-! # Theorems -/

/-! ## Label maps built by the code fit their gauges -/

theorem statusLabelValues (ip ty : String) :
    labelValues ["ipAddress", "type"] [("ipAddress", ip), ("type", ty)] = some [ip, ty] := by
  simp [labelValues, lookupAll, List.lookup]

theorem portLabelValues (l : ResultLabels) :
    labelValues ["ipAddress", "protocol", "port", "description"] l.toLabels = some l.values := by
  simp [labelValues, lookupAll, List.lookup, ResultLabels.toLabels, ResultLabels.values]

theorem setStatus_eq (ip ty : String) (v : Rat) (w : World) :
    setStatus [("ipAddress", ip), ("type", ty)] v w =
      .ok { w with m.publicIpPortscanStatus := w.m.publicIpPortscanStatus.store [ip, ty] v } := by
  simp [setStatus, GaugeVec.WithSet, statusLabelValues]

theorem setPort_eq (l : ResultLabels) (v : Rat) (w : World) :
    setPort l.toLabels v w =
      .ok { w with m.publicIpPortscanPort := w.m.publicIpPortscanPort.store l.values v } := by
  simp [setPort, GaugeVec.WithSet, portLabelValues]

/-! ## The status gauge follows the host events -/

theorem statusShows_congr {w w' : World} {ip : String}
    (hk : ∀ ty, w'.m.publicIpPortscanStatus.metrics [ip, ty] =
      w.m.publicIpPortscanStatus.metrics [ip, ty])
    (p : Option HostPhase) (hs : StatusShows w ip p) : StatusShows w' ip p := by
  cases p with
  | none => intro ty; rw [hk]; exact hs ty
  | some ph =>
    cases ph with
    | started => simpa [StatusShows, finishedOf, hk] using hs
    | finished e => simpa [StatusShows, finishedOf, elapsedOf, hk] using hs

theorem fire_statusShows (opts : Opts) (e : Event) (w : World) (h : String → Option HostPhase)
    (hw : ∀ ip, StatusShows w ip (h ip)) :
    ∃ w', fire opts e w = .ok w' ∧ ∀ ip, StatusShows w' ip (hostPhaseStep h e ip) := by
  cases e with
  | StartupScan =>
    refine ⟨_, rfl, ?_⟩
    intro ip ty
    rfl
  | StartScanIpAdress a =>
    refine ⟨_, by simp [fire, dispatch, Callbacks.StartScanIpAdress, setStatus_eq]; rfl, ?_⟩
    intro ip
    by_cases hip : ip = a
    · subst hip
      simp [hostPhaseStep, StatusShows, finishedOf, GaugeVec.store]
    · simp only [hostPhaseStep, hip, if_false]
      refine statusShows_congr ?_ _ (hw ip)
      intro ty
      simp [GaugeVec.store, hip]
  | FinishScanIpAdress a el now =>
    refine ⟨_, by simp [fire, dispatch, Callbacks.FinishScanIpAdress, setStatus_eq,
      Result.andThen]; rfl, ?_⟩
    intro ip
    by_cases hip : ip = a
    · subst hip
      simp [hostPhaseStep, StatusShows, finishedOf, elapsedOf, GaugeVec.store]
    · simp only [hostPhaseStep, hip, if_false]
      refine statusShows_congr ?_ _ (hw ip)
      intro ty
      simp [GaugeVec.store, hip]
  | FinishScan =>
    by_cases hp : opts.CachePath = ""
    · refine ⟨_, by simp [fire, dispatch, Callbacks.FinishScan, hp]; rfl, ?_⟩
      exact fun ip => statusShows_congr (fun _ => rfl) _ (hw ip)
    · refine ⟨_, by simp [fire, dispatch, Callbacks.FinishScan, hp]; rfl, ?_⟩
      exact fun ip => statusShows_congr (fun _ => rfl) _ (hw ip)
  | ResultCleanup =>
    refine ⟨_, rfl, ?_⟩
    exact fun ip => statusShows_congr (fun _ => rfl) _ (hw ip)
  | ResultPush r =>
    refine ⟨_, by simp [fire, dispatch, Callbacks.ResultPush, setPort_eq]; rfl, ?_⟩
    exact fun ip => statusShows_congr (fun _ => rfl) _ (hw ip)

theorem fireAll_statusShows (opts : Opts) (tr : List Event) :
    ∀ (w : World) (h : String → Option HostPhase), (∀ ip, StatusShows w ip (h ip)) →
      ∃ w', fireAll opts tr w = .ok w' ∧ ∀ ip, StatusShows w' ip (tr.foldl hostPhaseStep h ip) := by
  induction tr with
  | nil => intro w h hw; exact ⟨w, rfl, hw⟩
  | cons e rest ih =>
    intro w h hw
    obtain ⟨w1, h1, hs1⟩ := fire_statusShows opts e w h hw
    obtain ⟨w2, h2, hs2⟩ := ih w1 _ hs1
    exact ⟨w2, by simp [fireAll, h1, Result.andThen, h2], hs2⟩

theorem latestHostEvent_snoc (tr : List Event) (e : Event) :
    latestHostEvent (tr ++ [e]) = hostPhaseStep (latestHostEvent tr) e := by
  simp [latestHostEvent, List.foldl_append]

theorem latestHostEvent_none (tr : List Event) (ip : String) (hs : Event.StartupScan ∉ tr)
    (hn : latestHostEvent tr ip = none) : Event.StartScanIpAdress ip ∉ tr := by
  induction tr using List.reverseRecOn with
  | nil => simp
  | append_singleton tr e ih =>
    rw [latestHostEvent_snoc] at hn
    have hs0 : Event.StartupScan ∉ tr := fun hm => hs (List.mem_append_left _ hm)
    have he : e ≠ Event.StartupScan := fun hm => hs (by simp [hm])
    cases e with
    | StartupScan => exact absurd rfl he
    | StartScanIpAdress a =>
      by_cases hip : ip = a
      · simp [hostPhaseStep, hip] at hn
      · simp only [hostPhaseStep, hip, if_false] at hn
        simpa [hip] using ih hs0 hn
    | FinishScanIpAdress a el now =>
      by_cases hip : ip = a
      · simp [hostPhaseStep, hip] at hn
      · simp only [hostPhaseStep, hip, if_false] at hn
        simpa using ih hs0 hn
    | FinishScan => simpa using ih hs0 hn
    | ResultCleanup => simpa using ih hs0 hn
    | ResultPush r => simpa using ih hs0 hn

theorem latestHostEvent_started (tr : List Event) (ip : String)
    (hn : latestHostEvent tr ip = some .started) :
    ∃ front back, tr = front ++ Event.StartScanIpAdress ip :: back ∧
      ∀ el now, Event.FinishScanIpAdress ip el now ∉ back := by
  induction tr using List.reverseRecOn with
  | nil => simp [latestHostEvent] at hn
  | append_singleton tr e ih =>
    rw [latestHostEvent_snoc] at hn
    have extend : latestHostEvent tr ip = some .started →
        (∀ el now, e ≠ Event.FinishScanIpAdress ip el now) →
        ∃ front back, tr ++ [e] = front ++ Event.StartScanIpAdress ip :: back ∧
          ∀ el now, Event.FinishScanIpAdress ip el now ∉ back := by
      intro h0 hne
      obtain ⟨front, back, htr, hb⟩ := ih h0
      refine ⟨front, back ++ [e], by simp [htr], ?_⟩
      intro el now hm
      rcases List.mem_append.1 hm with hm | hm
      · exact hb el now hm
      · exact hne el now (List.mem_singleton.1 hm).symm
    cases e with
    | StartupScan => simp [hostPhaseStep] at hn
    | StartScanIpAdress a =>
      by_cases hip : ip = a
      · subst hip
        exact ⟨tr, [], rfl, by simp⟩
      · simp only [hostPhaseStep, hip, if_false] at hn
        exact extend hn (by simp)
    | FinishScanIpAdress a el now =>
      by_cases hip : ip = a
      · simp [hostPhaseStep, hip] at hn
      · simp only [hostPhaseStep, hip, if_false] at hn
        exact extend hn (by intro el2 now2 heq; injection heq with h1; exact hip h1.symm)
    | FinishScan => exact extend hn (by simp)
    | ResultCleanup => exact extend hn (by simp)
    | ResultPush r => exact extend hn (by simp)

theorem cycleBody_latest (targets : List String) (tr : List Event) (hc : CycleBody targets tr)
    (ip : String) (hip : ip ∈ targets) : ∃ el, latestHostEvent tr ip = some (.finished el) := by
  obtain ⟨hs, hstart, hfin⟩ := hc
  cases hl : latestHostEvent tr ip with
  | none => exact absurd (hstart ip hip) (latestHostEvent_none tr ip hs hl)
  | some ph =>
    cases ph with
    | finished el => exact ⟨el, rfl⟩
    | started =>
      obtain ⟨front, back, htr, hb⟩ := latestHostEvent_started tr ip hl
      obtain ⟨el, now, hm⟩ := hfin front back ip htr
      exact absurd hm (hb el now)

theorem fire_startup (opts : Opts) (w : World) :
    ∃ w', fire opts .StartupScan w = .ok w' ∧ ∀ ip, StatusShows w' ip none :=
  ⟨_, rfl, fun _ _ => rfl⟩

/-- C7: for the listener wired in Setup, after a startup event and any sequence of further
events (every point of a cycle trace, hosts interleaved in any order), the status gauge has no
series for an address without host event since the startup event, shows finished = 0 for an
address whose latest host event is its start, and finished = 1 with the reported elapsed time
for an address whose latest host event is its finish; consequently, when the events make up a
whole cycle over the targets and the finish event fires, every target has finished = 1. -/
theorem status_gauge_follows_host_events (opts : Opts) (w : World) (tr : List Event) :
    (∀ front back, tr = front ++ back →
      ∃ w', fireAll opts (Event.StartupScan :: front) w = .ok w' ∧
        ∀ ip, StatusShows w' ip (latestHostEvent front ip)) ∧
    (∀ targets, CycleBody targets tr →
      ∃ w', fireAll opts (Event.StartupScan :: tr ++ [Event.FinishScan]) w = .ok w' ∧
        ∀ ip ∈ targets, finishedOf w' ip = some 1) := by
  have key : ∀ tr : List Event, ∃ w', fireAll opts (Event.StartupScan :: tr) w = .ok w' ∧
      ∀ ip, StatusShows w' ip (latestHostEvent tr ip) := by
    intro tr
    obtain ⟨w1, h1, hs1⟩ := fire_startup opts w
    obtain ⟨w2, h2, hs2⟩ := fireAll_statusShows opts tr w1 (fun _ => none) hs1
    exact ⟨w2, by simp [fireAll, h1, Result.andThen, h2], hs2⟩
  refine ⟨fun front _ _ => key front, ?_⟩
  intro targets hc
  obtain ⟨w1, h1, hs1⟩ := key (tr ++ [Event.FinishScan])
  refine ⟨w1, h1, ?_⟩
  intro ip hip
  obtain ⟨el, hl⟩ := cycleBody_latest targets tr hc ip hip
  have hs := hs1 ip
  rw [latestHostEvent_snoc] at hs
  simp only [hostPhaseStep, hl] at hs
  exact hs.1

/-- Witness of C7: Scenario A. -/
theorem status_gauge_follows_host_events_witness :
    CycleBody ["10.0.0.1"] bodyA ∧
    ∃ w', fireAll optsNoCache (Event.StartupScan :: bodyA ++ [Event.FinishScan]) worldFresh
        = .ok w' ∧
      ∀ ip ∈ ["10.0.0.1"], finishedOf w' ip = some 1 := by
  have hc : CycleBody ["10.0.0.1"] bodyA := by
    refine ⟨by decide, by simp [bodyA], ?_⟩
    intro front back ip heq
    rcases front with _ | ⟨a, _ | ⟨b, _ | ⟨c, _ | ⟨d, _ | ⟨e, front⟩⟩⟩⟩⟩ <;>
      simp [bodyA] at heq
    obtain ⟨h1, h2⟩ := heq
    subst h1 h2
    exact ⟨2, 1000, by simp⟩
  exact ⟨hc, (status_gauge_follows_host_events optsNoCache worldFresh bodyA).2 _ hc⟩

/-! ## The port gauge holds the pushes made after the cleanup -/

theorem lastPushFrom_cons (init : Option Rat) (e : Event) (tr : List Event) (key : List String) :
    lastPushFrom init (e :: tr) key = lastPushFrom (lastPushFrom init [e] key) tr key := by
  simp [lastPushFrom]

theorem fire_cleanup (opts : Opts) (w : World) :
    ∃ w', fire opts .ResultCleanup w = .ok w' ∧
      ∀ key, w'.m.publicIpPortscanPort.metrics key = none :=
  ⟨_, rfl, fun _ => rfl⟩

theorem fire_port_metrics (opts : Opts) (e : Event) (w : World) (he : e ≠ .ResultCleanup) :
    ∃ w', fire opts e w = .ok w' ∧
      ∀ key, w'.m.publicIpPortscanPort.metrics key =
        lastPushFrom (w.m.publicIpPortscanPort.metrics key) [e] key := by
  cases e with
  | StartupScan =>
    refine ⟨_, rfl, ?_⟩
    intro key; rfl
  | StartScanIpAdress a =>
    refine ⟨_, by simp [fire, dispatch, Callbacks.StartScanIpAdress, setStatus_eq]; rfl, ?_⟩
    intro key; rfl
  | FinishScanIpAdress a el now =>
    refine ⟨_, by simp [fire, dispatch, Callbacks.FinishScanIpAdress, setStatus_eq,
      Result.andThen]; rfl, ?_⟩
    intro key; rfl
  | FinishScan =>
    by_cases hp : opts.CachePath = ""
    · refine ⟨_, by simp [fire, dispatch, Callbacks.FinishScan, hp]; rfl, ?_⟩
      intro key; rfl
    · refine ⟨_, by simp [fire, dispatch, Callbacks.FinishScan, hp]; rfl, ?_⟩
      intro key; rfl
  | ResultCleanup => exact absurd rfl he
  | ResultPush r =>
    refine ⟨_, by simp [fire, dispatch, Callbacks.ResultPush, setPort_eq]; rfl, ?_⟩
    intro key
    simp [lastPushFrom, GaugeVec.store]

theorem fireAll_port_metrics (opts : Opts) (tr : List Event) :
    ∀ w : World, (tr.all fun e => e != .ResultCleanup) = true →
      ∃ w', fireAll opts tr w = .ok w' ∧
        ∀ key, w'.m.publicIpPortscanPort.metrics key =
          lastPushFrom (w.m.publicIpPortscanPort.metrics key) tr key := by
  induction tr with
  | nil => intro w _; exact ⟨w, rfl, fun _ => rfl⟩
  | cons e rest ih =>
    intro w hall
    simp only [List.all_cons, Bool.and_eq_true, bne_iff_ne, ne_eq] at hall
    obtain ⟨w1, h1, hm1⟩ := fire_port_metrics opts e w hall.1
    obtain ⟨w2, h2, hm2⟩ := ih w1 hall.2
    refine ⟨w2, by simp [fireAll, h1, Result.andThen, h2], ?_⟩
    intro key
    rw [hm2 key, hm1 key, ← lastPushFrom_cons]

/-- C4: for the listener wired in Setup, every initial content of the port gauge and every
event trace in which the result cleanup fires exactly once and before any result push: the
listener runs through the whole trace, and afterwards a label set has a series in the port
gauge exactly when it was pushed in the trace, with the value of its last push; nothing from
before the trace survives. -/
theorem port_gauge_holds_cycle_pushes (opts : Opts) (tr : List Event) (w : World)
    (h : cleanupOnceBeforePush tr = true) :
    ∃ w', fireAll opts tr w = .ok w' ∧
      ∀ key, w'.m.publicIpPortscanPort.metrics key = lastPush tr key := by
  induction tr generalizing w with
  | nil => simp [cleanupOnceBeforePush] at h
  | cons e rest ih =>
    have other : e ≠ .ResultCleanup → cleanupOnceBeforePush rest = true →
        lastPushFrom none [e] = (fun _ => none) →
        ∃ w', fireAll opts (e :: rest) w = .ok w' ∧
          ∀ key, w'.m.publicIpPortscanPort.metrics key = lastPush (e :: rest) key := by
      intro he hr hl
      obtain ⟨w1, h1, _⟩ := fire_port_metrics opts e w he
      obtain ⟨w2, h2, hm2⟩ := ih w1 hr
      refine ⟨w2, by simp [fireAll, h1, Result.andThen, h2], ?_⟩
      intro key
      rw [hm2 key, lastPush, lastPush, lastPushFrom_cons none e, hl]
    cases e with
    | ResultCleanup =>
      obtain ⟨w1, h1, hm1⟩ := fire_cleanup opts w
      obtain ⟨w2, h2, hm2⟩ := fireAll_port_metrics opts rest w1 (by simpa [cleanupOnceBeforePush] using h)
      refine ⟨w2, by simp [fireAll, h1, Result.andThen, h2], ?_⟩
      intro key
      rw [hm2 key, hm1 key]
      simp [lastPush, lastPushFrom]
    | ResultPush r => simp [cleanupOnceBeforePush] at h
    | StartupScan => exact other (by simp) (by simpa [cleanupOnceBeforePush] using h) rfl
    | StartScanIpAdress a => exact other (by simp) (by simpa [cleanupOnceBeforePush] using h) rfl
    | FinishScanIpAdress a el now =>
      exact other (by simp) (by simpa [cleanupOnceBeforePush] using h) rfl
    | FinishScan => exact other (by simp) (by simpa [cleanupOnceBeforePush] using h) rfl

/-- Witness of C4: Scenario A, run on a port gauge that still holds a series of `10.0.0.9`
from an earlier cycle; afterwards the only series is the pushed label set, with value 1. -/
theorem port_gauge_holds_cycle_pushes_witness :
    cleanupOnceBeforePush traceA = true ∧
    worldStale.m.publicIpPortscanPort.metrics ["10.0.0.9", "tcp", "80", "http"] = some 1 ∧
    (∀ key, lastPush traceA key =
      if key = ["10.0.0.1", "tcp", "80", "http"] then some 1 else none) ∧
    ∃ w', fireAll optsNoCache traceA worldStale = .ok w' ∧
      ∀ key, w'.m.publicIpPortscanPort.metrics key = lastPush traceA key :=
  ⟨by decide, by decide,
    by intro key; simp [lastPush, lastPushFrom, traceA, entryA, ResultLabels.values],
    port_gauge_holds_cycle_pushes optsNoCache traceA worldStale (by decide)⟩

/-! ## Persisted cache: round trip and load failure -/

theorem decodePort_encodePort (p : PortProbeResult) : decodePort (encodePort p) = some p := by
  obtain ⟨protocol, port, classification, description⟩ := p
  cases classification <;>
    simp [decodePort, encodePort, Doc.field, List.lookup, Doc.asStr, Doc.asNum, decodeNat,
      decodeClassification, encodeClassification]

theorem decodeAll_map {α β : Type} (f : β → Option α) (g : α → β) (x : α → α)
    (h : ∀ a, f (g a) = some (x a)) (l : List α) :
    decodeAll f (l.map g) = some (l.map x) := by
  induction l with
  | nil => rfl
  | cons a rest ih => simp [decodeAll, h, ih]

/-- A record as it comes back from storage: the timestamp in whole seconds. -/
theorem decodeRecord_encodeRecord (r : HostScanRecord) :
    decodeRecord (encodeRecord r) = some { r with updated := Int.floor r.updated } := by
  obtain ⟨status, elapsed, updated, results⟩ := r
  have hres := decodeAll_map decodePort encodePort id decodePort_encodePort results
  cases status <;>
    simp [decodeRecord, encodeRecord, Doc.field, List.lookup, Doc.asStr, Doc.asNum, Doc.asArr,
      decodeStatus, encodeStatus, hres]

theorem decodeCache_encodeCache (c : ResultCache) :
    decodeCache (encodeCache c) =
      some (c.map fun e => (e.1, { e.2 with updated := Int.floor e.2.updated })) := by
  simp only [decodeCache, encodeCache]
  exact decodeAll_map _ _ _ (fun e => by simp [decodeRecord_encodeRecord]) c

theorem cacheEquiv_floor (c : ResultCache) :
    ResultCache.Equiv (c.map fun e => (e.1, { e.2 with updated := Int.floor e.2.updated })) c := by
  induction c with
  | nil => exact List.Forall₂.nil
  | cons e rest ih =>
    exact List.Forall₂.cons ⟨rfl, rfl, rfl, by simp, rfl⟩ ih

theorem cacheLoad_cacheSave (c loader : Portscanner) (path : String) (files : FileSystem) :
    (loader.CacheLoad path (c.CacheSave path files)).cache =
      c.cache.map fun e => (e.1, { e.2 with updated := Int.floor e.2.updated }) := by
  simp [Portscanner.CacheLoad, Portscanner.CacheSave, FileSystem.rename, FileSystem.write,
    decodeCache_encodeCache]

/-- C5: round trip of the persisted cache. For every cache, every path and every prior state of
the storage, CacheSave to the path followed by CacheLoad from the same path yields a cache
equivalent to the saved one up to sub-second precision of the timestamps; and when a cache
path is configured, the finish callback followed by Setup of a restarted process restores an
equivalent cache. -/
theorem cache_save_load_round_trip (c loader : Portscanner) (path : String) (files : FileSystem)
    (opts : Opts) (w : World) :
    ResultCache.Equiv (loader.CacheLoad path (c.CacheSave path files)).cache c.cache ∧
    (opts.CachePath ≠ "" →
      ∃ w', Callbacks.FinishScan opts w = .ok w' ∧
        ResultCache.Equiv (Setup opts w'.files).m.portscanner.cache w.m.portscanner.cache) := by
  constructor
  · rw [cacheLoad_cacheSave]
    exact cacheEquiv_floor _
  · intro hp
    refine ⟨_, by simp [Callbacks.FinishScan, hp]; rfl, ?_⟩
    have hstat : statIsNotExist (w.m.portscanner.CacheSave opts.CachePath w.files)
        opts.CachePath = false := by
      simp [statIsNotExist, Portscanner.CacheSave, FileSystem.rename, FileSystem.write]
    simp only [Setup, hp, ne_eq, not_false_eq_true, if_true, hstat, Bool.not_false]
    rw [cacheLoad_cacheSave]
    exact cacheEquiv_floor _

/-- Witness of C5: a cache saved under the configured path comes back after a restart. -/
theorem cache_save_load_round_trip_witness :
    optsCache.CachePath ≠ "" ∧
    ∃ w', Callbacks.FinishScan optsCache worldAfterA = .ok w' ∧
      ResultCache.Equiv (Setup optsCache w'.files).m.portscanner.cache
        worldAfterA.m.portscanner.cache :=
  ⟨by decide,
    (cache_save_load_round_trip worldAfterA.m.portscanner Portscanner.Init "/tmp/portscan.cache"
      noFiles optsCache worldAfterA).2 (by decide)⟩

/-- C6: for every configured cache path, when the file at that path is missing, unreadable or
corrupt, Setup completes and the result cache of the portscanner is empty afterwards. -/
theorem setup_without_usable_cache (opts : Opts) (files : FileSystem)
    (h : files opts.CachePath = .absent ∨ files opts.CachePath = .unreadable ∨
      ∃ doc, files opts.CachePath = .content doc ∧ decodeCache doc = none) :
    (Setup opts files).m.portscanner.cache = [] := by
  by_cases hp : opts.CachePath = ""
  · simp [Setup, hp, Portscanner.Init]
  · rcases h with h | h | ⟨doc, h, hd⟩
    · simp [Setup, hp, statIsNotExist, h, Portscanner.Init]
    · simp [Setup, hp, statIsNotExist, h, Portscanner.Init, Portscanner.CacheLoad]
    · simp [Setup, hp, statIsNotExist, h, Portscanner.Init, Portscanner.CacheLoad, hd]

/-- Witness of C6: the configured cache file exists but cannot be read. -/
theorem setup_without_usable_cache_witness :
    unreadableFiles optsCache.CachePath = .unreadable ∧
    (Setup optsCache unreadableFiles).m.portscanner.cache = [] :=
  ⟨by simp [unreadableFiles, optsCache],
    (setup_without_usable_cache optsCache unreadableFiles
      (Or.inr (Or.inl (by simp [unreadableFiles, optsCache]))))⟩

/-! ## Target discovery -/

theorem appendIpAddresses_eq (values : List PublicIPAddress)
    (h : ∀ val ∈ values, val.PublicIPAddressPropertiesFormat ≠ none) :
    ∀ ipAddressList : List String,
      appendIpAddresses ipAddressList values =
        .ok (ipAddressList ++ values.filterMap PublicIPAddress.address) := by
  induction values with
  | nil => intro l; simp [appendIpAddresses]
  | cons val rest ih =>
    intro l
    have hrest := ih (fun x hx => h x (List.mem_cons_of_mem _ hx))
    cases hp : val.PublicIPAddressPropertiesFormat with
    | none => exact absurd hp (h val (List.mem_cons_self _ _))
    | some properties =>
      cases hv : properties.IPAddress with
      | none => simp [appendIpAddresses, hp, hv, hrest, PublicIPAddress.address]
      | some ip => simp [appendIpAddresses, hp, hv, hrest, PublicIPAddress.address]

theorem fetchLoop_eq (api : AzureApi) (subscriptions : List Subscription)
    (pages : List (List PublicIPAddress))
    (h : List.Forall₂ (ListingSucceeds api) subscriptions pages) :
    (∀ val ∈ pages.flatten, val.PublicIPAddressPropertiesFormat ≠ none) →
    ∀ ipAddressList : List String,
      fetchLoop api subscriptions ipAddressList =
        .ok (ipAddressList ++ pages.flatten.filterMap PublicIPAddress.address) := by
  induction h with
  | nil => intro _ l; simp [fetchLoop]
  | @cons s values _ _ hs _ ih =>
    intro hprops l
    obtain ⟨id, hid, hlist⟩ := hs
    have hv : ∀ val ∈ values, val.PublicIPAddressPropertiesFormat ≠ none :=
      fun val hval => hprops val (by simp [hval])
    have hrest := ih (fun val hval => hprops val (by
      simp only [List.flatten_cons, List.mem_append]; exact Or.inr hval))
    simp [fetchLoop, hid, hlist, appendIpAddresses_eq values hv, hrest]

theorem fetchLoop_fails (api : AzureApi) (subscriptions : List Subscription)
    (h : ∃ s ∈ subscriptions, ListingFails api s) :
    ∀ ipAddressList : List String, ∃ p, fetchLoop api subscriptions ipAddressList = .error p := by
  induction subscriptions with
  | nil => simp at h
  | cons s rest ih =>
    intro l
    cases hid : s.SubscriptionID with
    | none => exact ⟨.nilPointerDereference, by simp [fetchLoop, hid]⟩
    | some id =>
      cases hl : api.ListAll id with
      | error err => exact ⟨.logged err, by simp [fetchLoop, hid, hl]⟩
      | ok values =>
        cases ha : appendIpAddresses l values with
        | error p => exact ⟨p, by simp [fetchLoop, hid, hl, ha]⟩
        | ok l' =>
          obtain ⟨s', hmem, err, id', hid', hfail⟩ := h
          rcases List.mem_cons.1 hmem with heq | hmem
          · subst heq
            rw [hid] at hid'
            cases hid'
            rw [hl] at hfail
            cases hfail
          · obtain ⟨p, hp⟩ := ih ⟨s', hmem, err, id', hid', hfail⟩ l'
            exact ⟨p, by simp [fetchLoop, hid, hl, ha, hp]⟩

theorem fetchLoop_first_failure (api : AzureApi) (good : List Subscription)
    (pages : List (List PublicIPAddress)) (s : Subscription) (rest : List Subscription)
    (err : String) (h : List.Forall₂ (ListingSucceeds api) good pages)
    (hs : ListingFailsWith api s err) :
    (∀ val ∈ pages.flatten, val.PublicIPAddressPropertiesFormat ≠ none) →
    ∀ ipAddressList : List String,
      fetchLoop api (good ++ s :: rest) ipAddressList = .error (.logged err) := by
  induction h with
  | nil =>
    intro _ l
    obtain ⟨id, hid, hfail⟩ := hs
    simp [fetchLoop, hid, hfail]
  | @cons g values _ _ hg _ ih =>
    intro hprops l
    obtain ⟨id, hid, hlist⟩ := hg
    have hv : ∀ val ∈ values, val.PublicIPAddressPropertiesFormat ≠ none :=
      fun val hval => hprops val (by simp [hval])
    have hrest := ih (fun val hval => hprops val (by
      simp only [List.flatten_cons, List.mem_append]; exact Or.inr hval))
    simp [fetchLoop, hid, hlist, appendIpAddresses_eq values hv, hrest]

/-- When all listings succeed and every listed resource carries its properties,
fetchPublicIpAdresses returns exactly the non-nil IPAddress values of the listed resources, in
subscription order and within a subscription in listing order, and the length of the result
is the number of listed resources that have an address. -/
theorem fetchPublicIpAdresses_with_properties (api : AzureApi)
    (subscriptions : List Subscription) (pages : List (List PublicIPAddress))
    (h : List.Forall₂ (ListingSucceeds api) subscriptions pages)
    (hprops : ∀ val ∈ pages.flatten, val.PublicIPAddressPropertiesFormat ≠ none) :
    fetchPublicIpAdresses api subscriptions =
        .ok (pages.flatten.filterMap PublicIPAddress.address) ∧
      (pages.flatten.filterMap PublicIPAddress.address).length =
        pages.flatten.countP fun val => val.address.isSome := by
  constructor
  · simpa [fetchPublicIpAdresses] using fetchLoop_eq api subscriptions pages h hprops []
  · generalize pages.flatten = l
    induction l with
    | nil => rfl
    | cons val rest ih =>
      cases hv : val.address with
      | none => simp [List.filterMap_cons, hv, ih]
      | some ip => simp [List.filterMap_cons, hv, ih]

/-- C9 at the failing input: the listing of the only subscription succeeds with a resource
that has the address `10.0.0.1` and a resource without properties; reading the address of the
latter dereferences the nil properties pointer, and fetchPublicIpAdresses panics instead of
returning the one address. -/
theorem fetch_resource_without_properties_panics :
    ListingSucceeds apiBare subA [⟨some ⟨some "10.0.0.1"⟩⟩, ⟨none⟩] ∧
    fetchPublicIpAdresses apiBare [subA] = .error .nilPointerDereference :=
  ⟨⟨"sub-a", rfl, rfl⟩, rfl⟩

/-! ## Collect -/

/-- C1, as the code has it: for a collection cycle whose discovered target list is empty,
Collect sets the empty target list, returns, and does not invoke start: no event fires, and
gauges, cache and storage stay as they were. -/
theorem collect_empty_does_not_start (opts : Opts) (api : AzureApi) (env : ScanEnv)
    (subscriptions : List Subscription) (w : World)
    (h : fetchPublicIpAdresses api subscriptions = .ok []) :
    Collect opts api env subscriptions w =
      .ok { w with m.portscanner := w.m.portscanner.SetIps [] } := by
  simp [Collect, h]

/-- Witness of C1 as amended: a subscription that lists no resource. -/
theorem collect_empty_does_not_start_witness :
    fetchPublicIpAdresses apiNone [subA] = .ok [] ∧
    Collect optsNoCache apiNone envA [subA] worldFresh =
      .ok { worldFresh with m.portscanner := worldFresh.m.portscanner.SetIps [] } :=
  ⟨rfl, collect_empty_does_not_start optsNoCache apiNone envA [subA] worldFresh rfl⟩

/-- C1 fails: with an empty discovered target list Collect returns without any event, whereas
start on that empty target list fires the startup event followed by the finish event. -/
theorem collect_empty_counterexample :
    (Collect optsNoCache apiNone envA [subA] worldFresh).returned = true ∧
    (Collect optsNoCache apiNone envA [subA] worldFresh).state.m.portscanner.PublicIps = [] ∧
    (Collect optsNoCache apiNone envA [subA] worldFresh).state.events = [] ∧
    (Portscanner.Start optsNoCache envA
      (Collect optsNoCache apiNone envA [subA] worldFresh).state).state.events =
        [.StartupScan, .FinishScan] := by
  decide

/-- C3, as the code has it: when listing public IP addresses fails for some subscription,
Collect does not return normally: it panics during discovery, before the target list is
replaced and without running start, and the state is the one Collect was entered with. When
every subscription before the first failing one is listed successfully and every resource
listed there carries its properties, the panic is the one raised by logger.Panic with the
error of that first failing listing. -/
theorem collect_panics_when_listing_fails (opts : Opts) (api : AzureApi) (env : ScanEnv)
    (subscriptions : List Subscription) (w : World)
    (h : ∃ s ∈ subscriptions, ListingFails api s) :
    (∃ p, Collect opts api env subscriptions w = .panicked p w) ∧
    (∀ good s rest pages err, subscriptions = good ++ s :: rest →
      List.Forall₂ (ListingSucceeds api) good pages →
      (∀ val ∈ pages.flatten, val.PublicIPAddressPropertiesFormat ≠ none) →
      ListingFailsWith api s err →
      Collect opts api env subscriptions w = .panicked (.logged err) w) := by
  constructor
  · obtain ⟨p, hp⟩ := fetchLoop_fails api subscriptions h []
    exact ⟨p, by simp [Collect, fetchPublicIpAdresses, hp]⟩
  · intro good s rest pages err hsub hgood hprops hs
    have hf := fetchLoop_first_failure api good pages s rest err hgood hs hprops []
    simp [Collect, fetchPublicIpAdresses, hsub, hf]

/-- Witness of C3 as amended: the listing of the first subscription succeeds, the listing of
the second one fails; Collect panics with the error of the second listing. -/
theorem collect_panics_when_listing_fails_witness :
    (∃ s ∈ [subA, subB], ListingFails apiMixed s) ∧
    List.Forall₂ (ListingSucceeds apiMixed) [subA] [[⟨some ⟨some "10.0.0.1"⟩⟩]] ∧
    ListingFailsWith apiMixed subB "listing failed" ∧
    Collect optsNoCache apiMixed envA [subA, subB] worldAfterA =
      .panicked (.logged "listing failed") worldAfterA :=
  have hfail : ListingFailsWith apiMixed subB "listing failed" := ⟨"sub-b", rfl, rfl⟩
  have h : ∃ s ∈ [subA, subB], ListingFails apiMixed s :=
    ⟨subB, by simp, "listing failed", hfail⟩
  have hgood : List.Forall₂ (ListingSucceeds apiMixed) [subA] [[⟨some ⟨some "10.0.0.1"⟩⟩]] :=
    List.Forall₂.cons ⟨"sub-a", rfl, rfl⟩ List.Forall₂.nil
  ⟨h, hgood, hfail,
    (collect_panics_when_listing_fails optsNoCache apiMixed envA [subA, subB] worldAfterA h).2
      [subA] subB [] _ "listing failed" rfl hgood (by simp) hfail⟩

/-- C3 fails: after a cycle that set the target list to one address, a Collect whose listing
fails does not return normally, fires no event and leaves the target list untouched. -/
theorem collect_listing_failure_counterexample :
    worldAfterA.m.portscanner.PublicIps = ["10.0.0.1"] ∧
    (Collect optsNoCache apiDown envA [subA] worldAfterA).returned = false ∧
    (Collect optsNoCache apiDown envA [subA] worldAfterA).state.events = worldAfterA.events := by
  decide

/-! ## A started cycle leaves only series of its targets in the port gauge -/

theorem lastPushFrom_some (tr : List Event) (key : List String) :
    ∀ (init : Option Rat) (v : Rat), lastPushFrom init tr key = some v →
      init = some v ∨ ∃ r, Event.ResultPush r ∈ tr ∧ key = r.Labels.values := by
  induction tr with
  | nil => intro init v h; exact Or.inl h
  | cons e rest ih =>
    intro init v h
    rw [lastPushFrom_cons] at h
    rcases ih _ v h with h1 | ⟨r, hr, hk⟩
    · cases e with
      | ResultPush r =>
        by_cases hk : key = r.Labels.values
        · exact Or.inr ⟨r, by simp, hk⟩
        · left; simpa [lastPushFrom, hk] using h1
      | StartupScan => left; simpa [lastPushFrom] using h1
      | StartScanIpAdress a => left; simpa [lastPushFrom] using h1
      | FinishScanIpAdress a el now => left; simpa [lastPushFrom] using h1
      | FinishScan => left; simpa [lastPushFrom] using h1
      | ResultCleanup => left; simpa [lastPushFrom] using h1
    · exact Or.inr ⟨r, List.mem_cons_of_mem _ hr, hk⟩

theorem fire_keeps_within (opts : Opts) (e : Event) (targets : List String) (w : World)
    (he : e ≠ .ResultCleanup) (hne : ∀ r, e ≠ .ResultPush r)
    (hw : PortSeriesWithin targets w) :
    ∃ w', fire opts e w = .ok w' ∧ PortSeriesWithin targets w' := by
  obtain ⟨w1, h1, hm⟩ := fire_port_metrics opts e w he
  refine ⟨w1, h1, ?_⟩
  intro key v hv
  rw [hm key] at hv
  rcases lastPushFrom_some _ key _ v hv with h0 | ⟨r, hr, _⟩
  · exact hw key v h0
  · exact absurd (List.mem_singleton.1 hr).symm (hne r)

theorem fire_push_within (opts : Opts) (ip : String) (p : PortProbeResult)
    (targets : List String) (w : World) (hip : ip ∈ targets)
    (hw : PortSeriesWithin targets w) :
    ∃ w', fire opts (.ResultPush (resultEntry ip p)) w = .ok w' ∧
      PortSeriesWithin targets w' := by
  obtain ⟨w1, h1, hm⟩ := fire_port_metrics opts (.ResultPush (resultEntry ip p)) w (by simp)
  refine ⟨w1, h1, ?_⟩
  intro key v hv
  rw [hm key] at hv
  rcases lastPushFrom_some _ key _ v hv with h0 | ⟨r, hr, hk⟩
  · exact hw key v h0
  · have hr' := List.mem_singleton.1 hr
    injection hr' with hr'
    subst hr'
    exact ⟨ip, hip, by simp [hk, seriesIpAddress, ResultLabels.values, resultEntry]⟩

/-! ### Interleavings keep the steps of the host scans and their order -/

theorem merge_complete {α : Type} {l r out : List α} (h : Shuffle l r out) :
    ∃ choices, merge choices l r = out := by
  induction h with
  | done => exact ⟨[], rfl⟩
  | left a _ ih =>
    obtain ⟨choices, hc⟩ := ih
    exact ⟨true :: choices, by simp [merge, hc]⟩
  | right b _ ih =>
    obtain ⟨choices, hc⟩ := ih
    exact ⟨false :: choices, by simp [merge, hc]⟩

theorem interleave_complete {α : Type} {ts : List (List α)} {out : List α}
    (h : Interleaving ts out) : ∃ choices, interleave choices ts = out := by
  induction h with
  | nil => exact ⟨[], rfl⟩
  | cons _ hs ih =>
    obtain ⟨rest, hrest⟩ := ih
    obtain ⟨choices, hc⟩ := merge_complete hs
    exact ⟨choices :: rest, by simp [interleave, hrest, hc]⟩

theorem shuffle_nil_left {α : Type} (r : List α) : Shuffle [] r r := by
  induction r with
  | nil => exact .done
  | cons b r ih => exact .right b ih

theorem shuffle_nil_right {α : Type} (l : List α) : Shuffle l [] l := by
  induction l with
  | nil => exact .done
  | cons a l ih => exact .left a ih

theorem shuffle_append {α : Type} (l r : List α) : Shuffle l r (l ++ r) := by
  induction l with
  | nil => exact shuffle_nil_left r
  | cons a l ih => exact .left a ih

theorem merge_sound {α : Type} :
    ∀ (choices : List Bool) (l r : List α), Shuffle l r (merge choices l r) := by
  intro choices
  induction choices with
  | nil => intro l r; exact shuffle_append l r
  | cons b choices ih =>
    intro l r
    cases b with
    | true =>
      cases l with
      | nil => exact shuffle_nil_left r
      | cons a l => exact .left a (ih l r)
    | false =>
      cases r with
      | nil => exact shuffle_nil_right l
      | cons b r => exact .right b (ih l r)

theorem interleave_sound {α : Type} (ts : List (List α)) :
    ∀ choices : List (List Bool), Interleaving ts (interleave choices ts) := by
  induction ts with
  | nil => intro choices; cases choices <;> exact .nil
  | cons t ts ih =>
    intro choices
    cases choices with
    | nil => exact .cons (ih []) (shuffle_append t _)
    | cons c rest => exact .cons (ih rest) (merge_sound c t _)

theorem mem_merge {α : Type} (a : α) :
    ∀ (choices : List Bool) (l r : List α), a ∈ merge choices l r ↔ a ∈ l ∨ a ∈ r := by
  intro choices
  induction choices with
  | nil => intro l r; simp [merge]
  | cons b choices ih =>
    intro l r
    cases b with
    | true =>
      cases l with
      | nil => simp [merge]
      | cons x l => simp [merge, ih, or_assoc]
    | false =>
      cases r with
      | nil => simp [merge]
      | cons x r =>
        simp only [merge, List.mem_cons, ih]
        tauto

theorem mem_interleave {α : Type} (a : α) (ts : List (List α)) :
    ∀ choices : List (List Bool), a ∈ interleave choices ts ↔ ∃ t ∈ ts, a ∈ t := by
  induction ts with
  | nil => intro choices; cases choices <;> simp [interleave]
  | cons t ts ih =>
    intro choices
    cases choices with
    | nil => simp [interleave, ih]
    | cons c rest => simp [interleave, mem_merge, ih]

theorem entriesFollowPublish_append (l r : List HostStep)
    (hl : entriesFollowPublish l = true) (hr : entriesFollowPublish r = true) :
    entriesFollowPublish (l ++ r) = true := by
  induction l with
  | nil => simpa using hr
  | cons s l ih =>
    cases s with
    | scanStarted ip => exact ih (by simpa [entriesFollowPublish] using hl)
    | publishRecord ip record => rfl
    | pushEntry ip p => simp [entriesFollowPublish] at hl
    | scanFinished ip el now => exact ih (by simpa [entriesFollowPublish] using hl)

theorem entriesFollowPublish_merge :
    ∀ (choices : List Bool) (l r : List HostStep), entriesFollowPublish l = true →
      entriesFollowPublish r = true → entriesFollowPublish (merge choices l r) = true := by
  intro choices
  induction choices with
  | nil => intro l r hl hr; exact entriesFollowPublish_append l r hl hr
  | cons b choices ih =>
    intro l r hl hr
    cases b with
    | true =>
      cases l with
      | nil => simpa [merge] using hr
      | cons s l =>
        cases s with
        | scanStarted ip => exact ih l r (by simpa [entriesFollowPublish] using hl) hr
        | publishRecord ip record => rfl
        | pushEntry ip p => simp [entriesFollowPublish] at hl
        | scanFinished ip el now => exact ih l r (by simpa [entriesFollowPublish] using hl) hr
    | false =>
      cases r with
      | nil => simpa [merge] using hl
      | cons s r =>
        cases s with
        | scanStarted ip => exact ih l r hl (by simpa [entriesFollowPublish] using hr)
        | publishRecord ip record => rfl
        | pushEntry ip p => simp [entriesFollowPublish] at hr
        | scanFinished ip el now => exact ih l r hl (by simpa [entriesFollowPublish] using hr)

theorem entriesFollowPublish_interleave (ts : List (List HostStep))
    (h : ∀ t ∈ ts, entriesFollowPublish t = true) :
    ∀ choices : List (List Bool), entriesFollowPublish (interleave choices ts) = true := by
  induction ts with
  | nil => intro choices; cases choices <;> rfl
  | cons t ts ih =>
    intro choices
    have ht := h t (List.mem_cons_self _ _)
    have hts := ih (fun x hx => h x (List.mem_cons_of_mem _ hx))
    cases choices with
    | nil => exact entriesFollowPublish_append _ _ ht (hts [])
    | cons c rest => exact entriesFollowPublish_merge c _ _ ht (hts rest)

theorem hostSteps_ipAddress (env : ScanEnv) (ip : String) :
    ∀ s ∈ hostSteps env ip, s.ipAddress = ip := by
  intro s hs
  simp only [hostSteps, List.mem_append, List.mem_cons, List.mem_map, List.mem_singleton,
    List.not_mem_nil, or_false] at hs
  rcases hs with ((hs | hs) | ⟨p, _, hs⟩) | hs <;> subst hs <;> rfl

theorem hostSteps_entriesFollowPublish (env : ScanEnv) (ip : String) :
    entriesFollowPublish (hostSteps env ip) = true := by
  simp [hostSteps, entriesFollowPublish]

theorem hostSteps_publishes (env : ScanEnv) (ip : String) :
    HostStep.publishRecord ip ⟨.finished, env.elapsed ip, env.now ip, openPorts env ip⟩ ∈
      hostSteps env ip := by
  simp [hostSteps]

/-! ### The steps of a cycle, in any interleaving -/

theorem runStep_within (opts : Opts) (step : HostStep) (targets : List String) (c : Cycle)
    (hip : step.ipAddress ∈ targets)
    (hg : c.published = false → ∀ ip p, step ≠ .pushEntry ip p)
    (hw : c.published = true → PortSeriesWithin targets c.world) :
    ∃ c', runStep opts step c = .ok c' ∧
      (c'.published = true → PortSeriesWithin targets c'.world) ∧
      (c.published = true → c'.published = true) ∧
      (∀ ip record, step = .publishRecord ip record → c'.published = true) := by
  cases step with
  | scanStarted ip =>
    obtain ⟨w1, h1, hm1⟩ := fire_port_metrics opts (.StartScanIpAdress ip) c.world (by simp)
    refine ⟨{ c with world := w1 }, by simp [runStep, h1, Result.map], ?_, fun h => h, ?_⟩
    · intro hp key v hv
      rw [hm1 key] at hv
      exact hw hp key v (by simpa [lastPushFrom] using hv)
    · intro ip' record h; cases h
  | scanFinished ip el now =>
    obtain ⟨w1, h1, hm1⟩ := fire_port_metrics opts (.FinishScanIpAdress ip el now) c.world
      (by simp)
    refine ⟨{ c with world := w1 }, by simp [runStep, h1, Result.map], ?_, fun h => h, ?_⟩
    · intro hp key v hv
      rw [hm1 key] at hv
      exact hw hp key v (by simpa [lastPushFrom] using hv)
    · intro ip' record h; cases h
  | pushEntry ip p =>
    have hpub : c.published = true := by
      cases hc : c.published with
      | true => rfl
      | false => exact absurd rfl (hg hc ip p)
    obtain ⟨w1, h1, hw1⟩ := fire_push_within opts ip p targets c.world hip (hw hpub)
    refine ⟨{ c with world := w1 }, by simp [runStep, h1, Result.map], fun _ => hw1,
      fun h => h, ?_⟩
    intro ip' record h; cases h
  | publishRecord ip record =>
    cases hc : c.published with
    | true =>
      refine ⟨⟨{ c.world with m.portscanner.cache :=
          c.world.m.portscanner.cache.filter (fun e => e.1 != ip) ++ [(ip, record)] }, true⟩,
        by simp [runStep, hc, Result.andThen, Result.map], ?_, fun _ => rfl, fun _ _ _ => rfl⟩
      intro _ key v hv
      exact hw hc key v hv
    | false =>
      obtain ⟨w1, h1, hm1⟩ := fire_cleanup opts { c.world with m.portscanner.cache := [] }
      refine ⟨⟨{ w1 with m.portscanner.cache :=
          w1.m.portscanner.cache.filter (fun e => e.1 != ip) ++ [(ip, record)] }, true⟩,
        by simp [runStep, hc, h1, Result.andThen, Result.map], ?_, fun _ => rfl,
        fun _ _ _ => rfl⟩
      intro _ key v hv
      have hv' : w1.m.publicIpPortscanPort.metrics key = some v := hv
      rw [hm1 key] at hv'
      cases hv'

theorem runSteps_within (opts : Opts) (targets : List String) (steps : List HostStep) :
    ∀ c : Cycle, (∀ s ∈ steps, s.ipAddress ∈ targets) →
      (c.published = false → entriesFollowPublish steps = true) →
      (c.published = true → PortSeriesWithin targets c.world) →
      ∃ c', runSteps opts steps c = .ok c' ∧
        (c'.published = true → PortSeriesWithin targets c'.world) ∧
        (c.published = true ∨ (∃ ip record, HostStep.publishRecord ip record ∈ steps) →
          c'.published = true) := by
  induction steps with
  | nil =>
    intro c _ _ hw
    refine ⟨c, rfl, hw, ?_⟩
    intro h
    rcases h with h | ⟨_, _, h⟩
    · exact h
    · simp at h
  | cons s rest ih =>
    intro c hips hg hw
    have hnot : c.published = false → ∀ ip p, s ≠ .pushEntry ip p := by
      intro hc ip p hs
      subst hs
      simpa [entriesFollowPublish] using hg hc
    obtain ⟨c1, h1, hw1, hkeep, hpub⟩ := runStep_within opts s targets c
      (hips s (List.mem_cons_self _ _)) hnot hw
    have hg1 : c1.published = false → entriesFollowPublish rest = true := by
      intro hc1
      have hc : c.published = false := by
        cases hc : c.published with
        | false => rfl
        | true => rw [hkeep hc] at hc1; cases hc1
      have hall := hg hc
      cases s with
      | scanStarted ip => simpa [entriesFollowPublish] using hall
      | scanFinished ip el now => simpa [entriesFollowPublish] using hall
      | pushEntry ip p => simp [entriesFollowPublish] at hall
      | publishRecord ip record => rw [hpub ip record rfl] at hc1; cases hc1
    obtain ⟨c2, h2, hw2, hend⟩ := ih c1 (fun x hx => hips x (List.mem_cons_of_mem _ hx)) hg1 hw1
    refine ⟨c2, by simp [runSteps, h1, Result.andThen, h2], hw2, ?_⟩
    intro h
    apply hend
    rcases h with h | ⟨ip, record, h⟩
    · exact Or.inl (hkeep h)
    · rcases List.mem_cons.1 h with h | h
      · exact Or.inl (hpub ip record h.symm)
      · exact Or.inr ⟨ip, record, h⟩

theorem start_within (opts : Opts) (env : ScanEnv) (w : World)
    (hne : w.m.portscanner.PublicIps ≠ []) :
    ∃ w', Portscanner.Start opts env w = .ok w' ∧
      PortSeriesWithin w.m.portscanner.PublicIps w' := by
  obtain ⟨w1, h1, hp1⟩ : ∃ w1, fire opts .StartupScan w = .ok w1 ∧
      w1.m.portscanner.PublicIps = w.m.portscanner.PublicIps := ⟨_, rfl, rfl⟩
  obtain ⟨ip0, hip0⟩ := List.exists_mem_of_ne_nil _ hne
  obtain ⟨c2, h2, hw2, hpub2⟩ := runSteps_within opts w.m.portscanner.PublicIps
    (interleave env.schedule (w1.m.portscanner.PublicIps.map (hostSteps env))) ⟨w1, false⟩
    (by
      intro s hs
      obtain ⟨t, ht, hst⟩ := (mem_interleave s _ _).1 hs
      obtain ⟨ip, hip, rfl⟩ := List.mem_map.1 ht
      rw [hostSteps_ipAddress env ip s hst, ← hp1]
      exact hip)
    (by
      intro _
      apply entriesFollowPublish_interleave
      intro t ht
      obtain ⟨ip, _, rfl⟩ := List.mem_map.1 ht
      exact hostSteps_entriesFollowPublish env ip)
    (by intro h; cases h)
  have hpub : c2.published = true := by
    apply hpub2
    refine Or.inr ⟨ip0, _, (mem_interleave _ _ _).2 ⟨hostSteps env ip0, ?_, hostSteps_publishes env ip0⟩⟩
    rw [hp1]
    exact List.mem_map.2 ⟨ip0, hip0, rfl⟩
  obtain ⟨w3, h3, hw3⟩ := fire_keeps_within opts .FinishScan w.m.portscanner.PublicIps c2.world
    (by simp) (by simp) (hw2 hpub)
  exact ⟨w3, by simp [Portscanner.Start, h1, Result.andThen, h2, Result.map, h3], hw3⟩

/-- C2, as the code has it: for every collection cycle with a non-empty discovered target list,
every prior content of the port gauge and every interleaving of the host scans of the cycle,
Collect returns and afterwards the port gauge holds no series whose ipAddress is absent from
the target list of the cycle; for an empty discovered target list the scan is not started and
the port gauge is left as it was. -/
theorem collect_port_gauge_within_targets (opts : Opts) (api : AzureApi) (env : ScanEnv)
    (subscriptions : List Subscription) (w : World) (ips : List String)
    (h : fetchPublicIpAdresses api subscriptions = .ok ips) :
    ∃ w', Collect opts api env subscriptions w = .ok w' ∧
      (ips ≠ [] → PortSeriesWithin ips w') ∧
      (ips = [] → w'.m.publicIpPortscanPort = w.m.publicIpPortscanPort) := by
  by_cases hips : ips = []
  · subst hips
    refine ⟨{ w with m.portscanner := w.m.portscanner.SetIps [] }, by simp [Collect, h], ?_, ?_⟩
    · exact fun hne => absurd rfl hne
    · exact fun _ => rfl
  · obtain ⟨w1, h1, hw1⟩ := start_within opts env
      { w with m.portscanner := w.m.portscanner.SetIps ips } hips
    have hlen : 0 < ips.length := List.length_pos.2 hips
    exact ⟨w1, by simp [Collect, h, hlen, h1], fun _ => hw1, fun he => absurd he hips⟩

/-- Witness of C2 as amended: a cycle that discovers `10.0.0.1` and `10.0.0.2` and scans them
with interleaved steps, run on a port gauge that holds a series of `10.0.0.9` from an earlier
cycle. -/
theorem collect_port_gauge_within_targets_witness :
    fetchPublicIpAdresses apiTwo [subA] = .ok ["10.0.0.1", "10.0.0.2"] ∧
    worldStale.m.publicIpPortscanPort.metrics ["10.0.0.9", "tcp", "80", "http"] = some 1 ∧
    (Collect optsNoCache apiTwo envInterleaved [subA] worldStale).state.events.drop
        worldStale.events.length =
      [.StartupScan, .StartScanIpAdress "10.0.0.2", .StartScanIpAdress "10.0.0.1",
       .ResultCleanup, .ResultPush ⟨⟨"10.0.0.2", "tcp", "80", "http"⟩, 1⟩,
       .ResultPush ⟨⟨"10.0.0.1", "tcp", "80", "http"⟩, 1⟩,
       .FinishScanIpAdress "10.0.0.1" 2 1000, .FinishScanIpAdress "10.0.0.2" 2 1000,
       .FinishScan] ∧
    ∃ w', Collect optsNoCache apiTwo envInterleaved [subA] worldStale = .ok w' ∧
      PortSeriesWithin ["10.0.0.1", "10.0.0.2"] w' :=
  have ⟨w', h1, h2, _⟩ :=
    collect_port_gauge_within_targets optsNoCache apiTwo envInterleaved [subA] worldStale
      ["10.0.0.1", "10.0.0.2"] rfl
  ⟨rfl, by decide, by decide, w', h1, h2 (by simp)⟩

/-- C2 fails: a first cycle discovers `10.0.0.1` with port 80 open; the next cycle discovers
no address; once it is done the target list is empty and the port gauge still holds the series
of `10.0.0.1`. -/
theorem collect_stale_series_counterexample :
    (Collect optsNoCache apiNone envA [subA] worldAfterA).returned = true ∧
    (Collect optsNoCache apiNone envA [subA] worldAfterA).state.m.portscanner.PublicIps = [] ∧
    (Collect optsNoCache apiNone envA [subA] worldAfterA).state.m.publicIpPortscanPort.metrics
      ["10.0.0.1", "tcp", "80", "http"] = some 1 := by
  decide

/-! ## Compliance collection -/

theorem assessmentLoop_eq (subscriptionID : String) (results : List ComplianceSegment)
    (h : ∀ r ∈ results, r.Percentage ≠ none) :
    ∀ infoMetric : MetricList,
      assessmentLoop subscriptionID results infoMetric =
        .ok (infoMetric ++ results.map fun r =>
          complianceRow subscriptionID r.SegmentType (r.Percentage.getD 0)) := by
  induction results with
  | nil => intro acc; simp [assessmentLoop]
  | cons r rest ih =>
    intro acc
    have hr := h r (List.mem_cons_self _ _)
    have hrest : ∀ x ∈ rest, x.Percentage ≠ none :=
      fun x hx => h x (List.mem_cons_of_mem _ hx)
    cases hp : r.Percentage with
    | none => exact absurd hp hr
    | some pct =>
      cases hs : r.SegmentType <;>
        simp [assessmentLoop, hp, hs, ih hrest, complianceRow]

/-- On a request error the compliance collector records the error, returns normally and sends
nothing on the callback channel. -/
theorem compliance_request_error (api : AzureApi) (id location err : String)
    (w : SecurityWorld) (h : api.ComplianceGet ("/subscriptions/" ++ id) location = .error err) :
    collectAzureSecurityCompliance api ⟨some id⟩ location w =
      .ok { w with errors := w.errors ++ [err] } := by
  simp [collectAzureSecurityCompliance, h]

/-- On a successful request whose reply carries its properties and whose assessment results
all carry a percentage, the compliance collector sends exactly one function on the callback
channel, holding one entry per assessment result in order; a nil assessment result gives one
function without entries. -/
theorem compliance_request_success (api : AzureApi) (id location : String)
    (complienceResult : Compliance) (properties : ComplianceProperties) (w : SecurityWorld)
    (h : api.ComplianceGet ("/subscriptions/" ++ id) location = .ok complienceResult)
    (hprops : complienceResult.ComplianceProperties = some properties)
    (hp : ∀ results, properties.AssessmentResult = some results →
      ∀ r ∈ results, r.Percentage ≠ none) :
    collectAzureSecurityCompliance api ⟨some id⟩ location w =
      .ok { w with callback := w.callback ++
        [(properties.AssessmentResult.getD []).map fun r =>
          complianceRow id r.SegmentType (r.Percentage.getD 0)] } := by
  cases hr : properties.AssessmentResult with
  | none => simp [collectAzureSecurityCompliance, h, hprops, hr]
  | some results =>
    simp [collectAzureSecurityCompliance, h, hprops, hr,
      assessmentLoop_eq id results (hp results hr)]

/-- The function sent by the compliance collector, once run, stores every entry in order in
the series of its subscription and segment type, and returns. -/
theorem complianceRows_gaugeSet (id : String) (rows : List (Option String × Rat)) :
    ∀ g : GaugeVec ["subscriptionID", "assessmentType"],
      runCallback (rows.map fun r => complianceRow id r.1 r.2) g =
        .ok (rows.foldl (fun g r => g.store [id, r.1.getD ""] r.2) g) := by
  induction rows with
  | nil => intro g; rfl
  | cons r rest ih =>
    intro g
    have hl : labelValues ["subscriptionID", "assessmentType"]
        [("subscriptionID", id), ("assessmentType", r.1.getD "")] = some [id, r.1.getD ""] := by
      simp [labelValues, lookupAll, List.lookup]
    have ih' := ih (g.store [id, r.1.getD ""] r.2)
    simp only [runCallback] at ih' ⊢
    simp [GaugeSet, GaugeVec.WithSet, complianceRow, hl]
    simpa [complianceRow] using ih'

/-- A successful compliance request whose reply has no properties: reading the assessment
result dereferences the nil properties pointer; the collector panics and nothing is sent. -/
theorem compliance_without_properties_panics :
    (collectAzureSecurityCompliance apiBare subA "westeurope" ⟨[], []⟩).returned = false ∧
    (collectAzureSecurityCompliance apiBare subA "westeurope" ⟨[], []⟩).state.callback = [] := by
  decide

/-- C10 at the failing input: the compliance request succeeds with one assessment result that
has a segment type but no percentage; the collector panics on the nil percentage and nothing
is sent on the callback channel. -/
theorem compliance_nil_percentage_panics :
    apiNone.ComplianceGet "/subscriptions/sub-a" "westeurope" =
      .ok ⟨some ⟨some [⟨some "Compliant", none⟩]⟩⟩ ∧
    (collectAzureSecurityCompliance apiNone subA "westeurope" ⟨[], []⟩).returned = false ∧
    (collectAzureSecurityCompliance apiNone subA "westeurope" ⟨[], []⟩).state.callback = [] ∧
    (collectAzureSecurityCompliance apiNone subA "westeurope" ⟨[], []⟩).state.errors = [] := by
  refine ⟨rfl, ?_, ?_, ?_⟩ <;> decide

end Exporter
